import Mathlib

/-!
Verification development for the solidification / phase-change module
(`src/cdo/cs_solidification.c`) of code_saturne.

The embedding uses `ℚ` for `cs_real_t` and `ℕ` for `cs_gnum_t`.  Per-cell
loops become structural recursions over lists of cell inputs; the fatal
`bft_error` call in the binary-alloy updater's unreachable `default` branch
is modelled with `Except`.  Definitions are translated line by line from the
C source; the comments cite the corresponding source lines.
-/

namespace CsSolidification

/-- States of a cell, from the `cs_solidification_state_t` enum
(`cs_solidification.c:63`).  `N_STATES` is the sentinel value `4` used by the
C code to size the counting arrays and as the initial value of the state
variable in `_get_alloy_state`. -/
inductive cs_solidification_state_t : Type where
  | SOLID : cs_solidification_state_t
  | MUSHY : cs_solidification_state_t
  | LIQUID : cs_solidification_state_t
  | EUTECTIC : cs_solidification_state_t
  | N_STATES : cs_solidification_state_t
  deriving DecidableEq, Repr, Inhabited

/-- Default of the static variable `cs_solidification_forcing_eps = 1e-3`
(`cs_solidification.c:78`). -/
def cs_solidification_forcing_eps : ℚ := 1 / 1000

/-- Default of the static variable
`cs_solidification_eutectic_threshold = 1e-4` (`cs_solidification.c:79`). -/
def cs_solidification_eutectic_threshold : ℚ := 1 / 10000

/-- The four entries of the `n_g_cells[CS_SOLIDIFICATION_N_STATES]` counting
array (`cs_solidification.c:244`), one field per state index `0..3`. -/
structure StateCounts : Type where
  n_solid : ℕ
  n_mushy : ℕ
  n_liquid : ℕ
  n_eutectic : ℕ
  deriving DecidableEq, Repr, Inhabited

/-- All four counters zero, as set at the start of each update pass
(`cs_solidification.c:445` and `:614`). -/
def StateCounts.zero : StateCounts := ⟨0, 0, 0, 0⟩

/-- Sum of the four entries of the counting array. -/
def StateCounts.total (n : StateCounts) : ℕ :=
  n.n_solid + n.n_mushy + n.n_liquid + n.n_eutectic

/-- Elementwise addition of two count vectors, the reduction operation of
`cs_parall_sum(CS_SOLIDIFICATION_N_STATES, CS_GNUM_TYPE, n_g_cells)`. -/
def StateCounts.add (a b : StateCounts) : StateCounts :=
  ⟨a.n_solid + b.n_solid, a.n_mushy + b.n_mushy,
   a.n_liquid + b.n_liquid, a.n_eutectic + b.n_eutectic⟩

/-- `cs_parall_sum` on the 4-entry count vector: elementwise sum over the
per-rank contributions (`cs_solidification.c:515`, `:760`). -/
def cs_parall_sum_counts (ranks : List StateCounts) : StateCounts :=
  ranks.foldl StateCounts.add StateCounts.zero

/-- Physical parameters of the Voller and Prakash model, structure
`cs_solidification_voller_t` (`cs_solidification.c:118`). -/
structure cs_solidification_voller_t : Type where
  t_solidus : ℚ
  t_liquidus : ℚ
  latent_heat : ℚ
  forcing_coef : ℚ
  deriving DecidableEq, Repr

/-- The values the Voller cell loop writes for one cell: the liquid fraction
`g_l[c_id]`, the two thermal coefficient arrays, the momentum forcing array
entry `forcing_mom_array[c_id]` and the `cell_state[c_id]` tag. -/
structure VollerCellOut : Type where
  g_l : ℚ
  thermal_reaction_coef : ℚ
  thermal_source_term : ℚ
  forcing_mom : ℚ
  cell_state : cs_solidification_state_t
  deriving DecidableEq, Repr

instance : Inhabited VollerCellOut := ⟨⟨0, 0, 0, 0, .SOLID⟩⟩

/-- Body of the cell loop of `_update_liquid_fraction_voller`
(`cs_solidification.c:454-507`).  `dgldT = 1/(t_liquidus - t_solidus)` and
`dgldT_coef = cell_rho*latent_heat*dgldT/dt` are precomputed by the pass
(lines 442 and 451).  The cell input is its temperature `temp[c_id]` and
volume `cell_vol[c_id]`; `n` is the `n_g_cells` accumulator. -/
def voller_cell_update (v : cs_solidification_voller_t)
    (forcing_eps dgldT_coef dgldT : ℚ) (temp cell_vol : ℚ)
    (n : StateCounts) : VollerCellOut × StateCounts :=
  let inv_forcing_eps := 1 / forcing_eps
  if temp < v.t_solidus then
    (⟨0, 0, 0, v.forcing_coef * inv_forcing_eps, .SOLID⟩,
     { n with n_solid := n.n_solid + 1 })
  else if temp > v.t_liquidus then
    (⟨1, 0, 0, 0, .LIQUID⟩,
     { n with n_liquid := n.n_liquid + 1 })
  else
    let glc := (temp - v.t_solidus) * dgldT
    let glm1 := 1 - glc
    (⟨glc, dgldT_coef, dgldT_coef * temp * cell_vol,
      v.forcing_coef * glm1 * glm1 / (glc * glc * glc + forcing_eps),
      .MUSHY⟩,
     { n with n_mushy := n.n_mushy + 1 })

/-- The cell loop of `_update_liquid_fraction_voller`
(`cs_solidification.c:454`), sequentially over the list of
(temperature, cell volume) pairs, threading the `n_g_cells` counters. -/
def voller_cells_loop (v : cs_solidification_voller_t)
    (forcing_eps dgldT_coef dgldT : ℚ) :
    List (ℚ × ℚ) → StateCounts → List VollerCellOut × StateCounts
  | [], n => ([], n)
  | cell :: rest, n =>
    let r := voller_cell_update v forcing_eps dgldT_coef dgldT
               cell.1 cell.2 n
    let s := voller_cells_loop v forcing_eps dgldT_coef dgldT rest r.2
    (r.1 :: s.1, s.2)

/-- `_update_liquid_fraction_voller` (`cs_solidification.c:417-516`):
zero the counters, precompute `dgldT` (line 442) and `dgldT_coef`
(line 451), then run the cell loop.  The result is the per-cell written
values together with the local `n_g_cells` counts. -/
def _update_liquid_fraction_voller (v : cs_solidification_voller_t)
    (forcing_eps cell_rho dt : ℚ) (cells : List (ℚ × ℚ)) :
    List VollerCellOut × StateCounts :=
  voller_cells_loop v forcing_eps
    (cell_rho * v.latent_heat * (1 / (v.t_liquidus - v.t_solidus)) / dt)
    (1 / (v.t_liquidus - v.t_solidus))
    cells StateCounts.zero

/-- Physical and phase-diagram parameters of the binary-alloy model,
the scalar fields of `cs_solidification_binary_alloy_t`
(`cs_solidification.c:143-212`). -/
structure cs_solidification_binary_alloy_t : Type where
  dilatation_coef : ℚ
  ref_concentration : ℚ
  latent_heat : ℚ
  forcing_coef : ℚ
  t_melt : ℚ
  t_eutec : ℚ
  t_eutec_inf : ℚ
  t_eutec_sup : ℚ
  c_eutec : ℚ
  c_eutec_a : ℚ
  kp : ℚ
  inv_kp : ℚ
  ml : ℚ
  inv_ml : ℚ
  deriving DecidableEq, Repr

/-- Result of `_get_alloy_state` (`cs_solidification.c:533-577`): the two
output parameters `t_liquidus`, `t_solidus` and the classified state. -/
structure AlloyStateOut : Type where
  t_liquidus : ℚ
  t_solidus : ℚ
  state : cs_solidification_state_t
  deriving DecidableEq, Repr

/-- `_get_alloy_state` (`cs_solidification.c:533-577`).  The C code first
sets `*state = CS_SOLIDIFICATION_N_STATES` (line 548) and then assigns a
state in every branch of the decision tree, so the sentinel never escapes
(proved below). -/
def _get_alloy_state (alloy : cs_solidification_binary_alloy_t)
    (temp conc : ℚ) : AlloyStateOut :=
  let t_liquidus := alloy.t_melt + alloy.ml * conc
  let t_solidus :=
    if conc < alloy.c_eutec_a then
      alloy.t_melt + alloy.ml * conc * alloy.inv_kp
    else alloy.t_eutec
  let state :=
    if conc < alloy.c_eutec_a then
      (if temp > t_liquidus then cs_solidification_state_t.LIQUID
       else if temp > t_solidus then cs_solidification_state_t.MUSHY
       else cs_solidification_state_t.SOLID)
    else if conc ≤ alloy.c_eutec then
      (if temp > t_liquidus then cs_solidification_state_t.LIQUID
       else if temp > alloy.t_eutec_sup then cs_solidification_state_t.MUSHY
       else if temp > alloy.t_eutec_inf then
         cs_solidification_state_t.EUTECTIC
       else cs_solidification_state_t.SOLID)
    else cs_solidification_state_t.SOLID
  ⟨t_liquidus, t_solidus, state⟩

/-- Inputs of one iteration of the binary-alloy cell loop: the bulk
temperature and concentration (current and previous), the cell volume,
and the previous values `g_l[c_id]`, `c_l[c_id]` read by the SOLID branch. -/
structure AlloyCellIn : Type where
  temp : ℚ
  conc : ℚ
  conc_prev : ℚ
  cell_vol : ℚ
  g_l_prev : ℚ
  c_l_prev : ℚ
  deriving DecidableEq, Repr

/-- The values the binary-alloy cell loop writes for one cell. -/
structure AlloyCellOut : Type where
  g_l : ℚ
  c_l : ℚ
  thermal_reaction_coef : ℚ
  thermal_source_term : ℚ
  forcing_mom : ℚ
  cell_state : cs_solidification_state_t
  deriving DecidableEq, Repr

instance : Inhabited AlloyCellOut := ⟨⟨0, 0, 0, 0, 0, .SOLID⟩⟩

/-- The fatal `bft_error` call of the unreachable `default` branch of the
state switch (`cs_solidification.c:745-748`). -/
inductive UpdateError : Type where
  | invalid_state : UpdateError
  deriving DecidableEq, Repr

/-- Body of the cell loop of `_update_liquid_fraction_binary_alloy`
(`cs_solidification.c:639-752`).  The pass precomputes
`rhoLovdt = cell_rho*latent_heat/dt` (line 631),
`inv_kpm1 = 1/(kp - 1)` (line 634) and
`eut_slope = 1/(c_eutec - c_eutec_a)` (line 635).  The `default` branch
(`bft_error`) is mapped to `Except.error`. -/
def alloy_cell_update (alloy : cs_solidification_binary_alloy_t)
    (forcing_eps rhoLovdt inv_kpm1 eut_slope : ℚ) (cell : AlloyCellIn)
    (n : StateCounts) : Except UpdateError (AlloyCellOut × StateCounts) :=
  let inv_forcing_eps := 1 / forcing_eps
  let r := _get_alloy_state alloy cell.temp cell.conc
  match r.state with
  | .SOLID =>
    let c_l :=
      if cell.g_l_prev > 0 then
        (if cell.conc ≥ alloy.c_eutec_a then alloy.c_eutec
         else cell.conc * alloy.inv_kp)
      else cell.c_l_prev
    .ok (⟨0, c_l, 0, 0, alloy.forcing_coef * inv_forcing_eps, .SOLID⟩,
         { n with n_solid := n.n_solid + 1 })
  | .MUSHY =>
    let dTm := cell.temp - alloy.t_melt
    let glc := 1 + inv_kpm1 * (cell.temp - r.t_liquidus) / dTm
    let dgldT := inv_kpm1 * (r.t_liquidus - alloy.t_melt) / (dTm * dTm)
    let dgldC := inv_kpm1 * alloy.ml / dTm
    .ok (⟨glc, dTm * alloy.inv_ml,
          dgldT * rhoLovdt,
          cell.cell_vol * (dgldT * cell.temp
            + dgldC * (cell.conc_prev - cell.conc)) * rhoLovdt,
          alloy.forcing_coef * (1 - glc) * (1 - glc)
            / (glc * glc * glc + forcing_eps),
          .MUSHY⟩,
         { n with n_mushy := n.n_mushy + 1 })
  | .LIQUID =>
    .ok (⟨1, cell.conc, 0, 0, 0, .LIQUID⟩,
         { n with n_liquid := n.n_liquid + 1 })
  | .EUTECTIC =>
    let glc := (cell.conc - alloy.c_eutec_a) * eut_slope
    .ok (⟨glc, alloy.c_eutec,
          0,
          cell.cell_vol * rhoLovdt * eut_slope * (cell.conc - cell.conc_prev),
          alloy.forcing_coef * (1 - glc) * (1 - glc)
            / (glc * glc * glc + forcing_eps),
          .MUSHY⟩,
         { n with n_mushy := n.n_mushy + 1 })
  | .N_STATES => .error UpdateError.invalid_state

/-- The cell loop of `_update_liquid_fraction_binary_alloy`
(`cs_solidification.c:639`), threading the `n_g_cells` counters and
aborting the pass if a cell is left unclassified. -/
def alloy_cells_loop (alloy : cs_solidification_binary_alloy_t)
    (forcing_eps rhoLovdt inv_kpm1 eut_slope : ℚ) :
    List AlloyCellIn → StateCounts →
      Except UpdateError (List AlloyCellOut × StateCounts)
  | [], n => .ok ([], n)
  | cell :: rest, n =>
    match alloy_cell_update alloy forcing_eps rhoLovdt inv_kpm1 eut_slope
            cell n with
    | .error e => .error e
    | .ok r =>
      match alloy_cells_loop alloy forcing_eps rhoLovdt inv_kpm1 eut_slope
              rest r.2 with
      | .error e => .error e
      | .ok s => .ok (r.1 :: s.1, s.2)

/-- `_update_liquid_fraction_binary_alloy` (`cs_solidification.c:592-810`),
cell part: zero the counters (line 614), precompute `rhoLovdt` (line 631),
`inv_kpm1` (line 634) and `eut_slope` (line 635), then run the cell loop. -/
def _update_liquid_fraction_binary_alloy
    (alloy : cs_solidification_binary_alloy_t)
    (forcing_eps cell_rho dt : ℚ) (cells : List AlloyCellIn) :
    Except UpdateError (List AlloyCellOut × StateCounts) :=
  alloy_cells_loop alloy forcing_eps
    (cell_rho * alloy.latent_heat / dt)
    (1 / (alloy.kp - 1))
    (1 / (alloy.c_eutec - alloy.c_eutec_a))
    cells StateCounts.zero

/-- The `state_ratio[CS_SOLIDIFICATION_N_STATES]` array of the monitoring
snapshot (`cs_solidification.c:243`), one field per state index. -/
structure StateVolumes : Type where
  vol_solid : ℚ
  vol_mushy : ℚ
  vol_liquid : ℚ
  vol_eutectic : ℚ
  deriving DecidableEq, Repr

/-- All four accumulators zero (`cs_solidification.c:826-827`). -/
def StateVolumes.zero : StateVolumes := ⟨0, 0, 0, 0⟩

/-- Body of the monitoring cell loop (`cs_solidification.c:829-852`):
add the cell volume to the entry selected by `cell_state[c_id]`; the
`default` case adds nothing. -/
def monitor_cell (r : StateVolumes)
    (p : cs_solidification_state_t × ℚ) : StateVolumes :=
  match p.1 with
  | .SOLID => { r with vol_solid := r.vol_solid + p.2 }
  | .LIQUID => { r with vol_liquid := r.vol_liquid + p.2 }
  | .MUSHY => { r with vol_mushy := r.vol_mushy + p.2 }
  | .EUTECTIC => { r with vol_eutectic := r.vol_eutectic + p.2 }
  | .N_STATES => r

/-- `_do_monitoring` (`cs_solidification.c:820-877`) for one rank: zero the
ratios, accumulate the cell volumes per state, then normalize by
`inv_voltot = 1/vol_tot` (lines 856-858; the parallel sum is the identity on
a single rank). -/
def _do_monitoring (cells : List (cs_solidification_state_t × ℚ))
    (vol_tot : ℚ) : StateVolumes :=
  let acc := cells.foldl monitor_cell StateVolumes.zero
  let inv_voltot := 1 / vol_tot
  ⟨acc.vol_solid * inv_voltot, acc.vol_mushy * inv_voltot,
   acc.vol_liquid * inv_voltot, acc.vol_eutectic * inv_voltot⟩

/-- The liquid-fraction-model bits of the `model` bitmask of the module
(`solid->model`), as far as the parameter setters consult them. -/
structure ModelFlags : Type where
  voller : Bool
  alloy : Bool
  deriving DecidableEq, Repr

/-- Control-flow outcome of a model-parameter setter call. -/
inductive SetterOutcome : Type where
  | fatal_empty : SetterOutcome
  | fatal_wrong_model : SetterOutcome
  | assert_failure : SetterOutcome
  | writes : SetterOutcome
  deriving DecidableEq, Repr

/-- Control flow of `cs_solidification_set_voller_model`
(`cs_solidification.c:1216-1242`): `bft_error` on a NULL module pointer
(line 1225), `bft_error` when the Voller bit is not set in `solid->model`
(lines 1227-1231), otherwise the parameters are written. -/
def cs_solidification_set_voller_model_outcome
    (solid : Option ModelFlags) : SetterOutcome :=
  match solid with
  | none => .fatal_empty
  | some m =>
    if (m.voller = false) then .fatal_wrong_model
    else .writes

/-- Control flow of `cs_solidification_set_binary_alloy_model`
(`cs_solidification.c:1267-1351`): `bft_error` on a NULL module pointer
(line 1281); the wrong-model condition is only checked by
`assert(solid->model & CS_SOLIDIFICATION_MODEL_BINARY_ALLOY)` (line 1288),
which aborts in a build with assertions enabled and is compiled out when
`NDEBUG` is defined, in which case the function proceeds to write the
parameters through the model context.  `ndebug` selects the build mode. -/
def cs_solidification_set_binary_alloy_model_outcome
    (ndebug : Bool) (solid : Option ModelFlags) : SetterOutcome :=
  match solid with
  | none => .fatal_empty
  | some m =>
    if ndebug then .writes
    else if m.alloy then .writes
    else .assert_failure

/-- The constraints the binary-alloy parameter setter
`cs_solidification_set_binary_alloy_model` establishes between the stored
fields (`cs_solidification.c:1333-1349`: `inv_kp = 1/kp`, `inv_ml = 1/ml`,
`c_eutec = (t_eutec - t_melt)*inv_ml`, `c_eutec_a = c_eutec*kp`,
`t_eutec_inf` and `t_eutec_sup` at `t_eutec` minus and plus the
eutectic threshold), together with the
physical sign conventions of the phase diagram used throughout the spec:
a negative liquidus slope, a partition coefficient in `(0,1)`, a eutectic
plateau below the melting point, and a positive eutectic tolerance. -/
def alloy_params_consistent (a : cs_solidification_binary_alloy_t)
    (eutectic_threshold : ℚ) : Prop :=
  a.ml < 0 ∧ 0 < a.kp ∧ a.kp < 1 ∧ a.t_eutec < a.t_melt ∧
  a.inv_kp = 1 / a.kp ∧ a.inv_ml = 1 / a.ml ∧
  a.c_eutec = (a.t_eutec - a.t_melt) * a.inv_ml ∧
  a.c_eutec_a = a.c_eutec * a.kp ∧
  0 < eutectic_threshold ∧
  a.t_eutec_inf = a.t_eutec - eutectic_threshold ∧
  a.t_eutec_sup = a.t_eutec + eutectic_threshold

instance (a : cs_solidification_binary_alloy_t) (thr : ℚ) :
    Decidable (alloy_params_consistent a thr) := by
  unfold alloy_params_consistent
  infer_instance

/-- The phase-diagram evaluation exactly as the specification words it
(spec sections 4.1 and 8): `t_liquidus = t_melt + ml*C`;
`t_solidus = t_melt + ml*C/kp` when `C < c_eutec_a`, else `t_eutec`;
then the ordered classification by concentration region, phrased with the
spec's temperature intervals. -/
def alloy_state_spec (a : cs_solidification_binary_alloy_t)
    (temp conc : ℚ) : AlloyStateOut :=
  let t_liquidus := a.t_melt + a.ml * conc
  let t_solidus :=
    if conc < a.c_eutec_a then a.t_melt + a.ml * conc / a.kp
    else a.t_eutec
  let state :=
    if conc < a.c_eutec_a then
      (if temp > t_liquidus then cs_solidification_state_t.LIQUID
       else if t_solidus < temp ∧ temp ≤ t_liquidus then
         cs_solidification_state_t.MUSHY
       else cs_solidification_state_t.SOLID)
    else if conc ≤ a.c_eutec then
      (if temp > t_liquidus then cs_solidification_state_t.LIQUID
       else if a.t_eutec_sup < temp ∧ temp ≤ t_liquidus then
         cs_solidification_state_t.MUSHY
       else if a.t_eutec_inf < temp ∧ temp ≤ a.t_eutec_sup then
         cs_solidification_state_t.EUTECTIC
       else cs_solidification_state_t.SOLID)
    else cs_solidification_state_t.SOLID
  ⟨t_liquidus, t_solidus, state⟩

/-- A concrete, physically consistent binary-alloy parameter set used for
concrete evaluations: `t_melt = 1000`, `t_eutec = 700`, `ml = -1000`,
`kp = 1/3`, so that `c_eutec = 3/10` and `c_eutec_a = 1/10`, with the default
eutectic threshold `1e-4`. -/
def cexAlloy : cs_solidification_binary_alloy_t :=
  ⟨0, 0, 1, 1, 1000, 700, 700 - 1 / 10000, 700 + 1 / 10000, 3 / 10, 1 / 10,
   1 / 3, 3, -1000, -1 / 1000⟩

theorem get_alloy_state_t_liquidus (a : cs_solidification_binary_alloy_t)
    (temp conc : ℚ) :
    (_get_alloy_state a temp conc).t_liquidus = a.t_melt + a.ml * conc := rfl

theorem get_alloy_state_four_states (a : cs_solidification_binary_alloy_t)
    (temp conc : ℚ) :
    (_get_alloy_state a temp conc).state = .SOLID ∨
    (_get_alloy_state a temp conc).state = .MUSHY ∨
    (_get_alloy_state a temp conc).state = .LIQUID ∨
    (_get_alloy_state a temp conc).state = .EUTECTIC := by
  unfold _get_alloy_state
  dsimp only
  split_ifs <;> simp

theorem get_alloy_state_mushy_cases (a : cs_solidification_binary_alloy_t)
    (temp conc : ℚ)
    (h : (_get_alloy_state a temp conc).state = .MUSHY) :
    (conc < a.c_eutec_a ∧ a.t_melt + a.ml * conc * a.inv_kp < temp ∧
      temp ≤ a.t_melt + a.ml * conc) ∨
    (a.c_eutec_a ≤ conc ∧ conc ≤ a.c_eutec ∧ a.t_eutec_sup < temp ∧
      temp ≤ a.t_melt + a.ml * conc) := by
  unfold _get_alloy_state at h
  dsimp only at h
  split_ifs at h with h1 h2 h3 h4 h5 h6 h7 <;>
    first
      | (exact Or.inl ⟨by linarith, by linarith, by linarith⟩)
      | (exact Or.inr ⟨by linarith, by linarith, by linarith, by linarith⟩)
      | simp at h

theorem get_alloy_state_eutectic_cases (a : cs_solidification_binary_alloy_t)
    (temp conc : ℚ)
    (h : (_get_alloy_state a temp conc).state = .EUTECTIC) :
    a.c_eutec_a ≤ conc ∧ conc ≤ a.c_eutec ∧ a.t_eutec_inf < temp ∧
      temp ≤ a.t_eutec_sup ∧ temp ≤ a.t_melt + a.ml * conc := by
  unfold _get_alloy_state at h
  dsimp only at h
  split_ifs at h with h1 h2 h3 h4 h5 h6 h7 <;>
    first
      | exact ⟨by linarith, by linarith, by linarith, by linarith, by linarith⟩
      | simp at h

theorem glc_bounds_aux (kp t_melt t_liq temp : ℚ) (hkp1 : kp < 1)
    (hdTm : temp - t_melt < 0) (hTl : temp ≤ t_liq)
    (hsum : 0 ≤ (kp - 1) * (temp - t_melt) + (temp - t_liq)) :
    0 ≤ 1 + 1 / (kp - 1) * (temp - t_liq) / (temp - t_melt) ∧
    1 + 1 / (kp - 1) * (temp - t_liq) / (temp - t_melt) ≤ 1 := by
  have hd : 0 < (kp - 1) * (temp - t_melt) :=
    mul_pos_of_neg_of_neg (by linarith) hdTm
  have hrw : 1 / (kp - 1) * (temp - t_liq) / (temp - t_melt)
      = (temp - t_liq) / ((kp - 1) * (temp - t_melt)) := by
    rw [one_div_mul_eq_div, div_div]
  constructor
  · rw [hrw]
    have h2 : -((kp - 1) * (temp - t_melt)) / ((kp - 1) * (temp - t_melt))
        ≤ (temp - t_liq) / ((kp - 1) * (temp - t_melt)) :=
      (div_le_div_right hd).mpr (by linarith)
    have h3 : -((kp - 1) * (temp - t_melt)) / ((kp - 1) * (temp - t_melt))
        = -1 := by
      rw [neg_div, div_self (ne_of_gt hd)]
    linarith
  · rw [hrw]
    have h4 : (temp - t_liq) / ((kp - 1) * (temp - t_melt)) ≤ 0 :=
      div_nonpos_of_nonpos_of_nonneg (by linarith) (le_of_lt hd)
    linarith

theorem alloy_mushy_glc_bounds (a : cs_solidification_binary_alloy_t)
    (thr : ℚ) (hA : alloy_params_consistent a thr) (temp conc : ℚ)
    (h : (_get_alloy_state a temp conc).state = .MUSHY) :
    0 ≤ 1 + 1 / (a.kp - 1) * (temp - (a.t_melt + a.ml * conc))
          / (temp - a.t_melt) ∧
    1 + 1 / (a.kp - 1) * (temp - (a.t_melt + a.ml * conc))
          / (temp - a.t_melt) ≤ 1 := by
  obtain ⟨hml, hkp0, hkp1, hte, hikp, himl, hce, hcea, hthr, hinf, hsup⟩ := hA
  rcases get_alloy_state_mushy_cases a temp conc h with
    ⟨hC, hTs, hTl⟩ | ⟨hC1, hC2, hTs, hTl⟩
  · -- hypo-eutectic region: conc < c_eutec_a
    rw [hikp] at hTs
    have h5 : a.ml * conc * (1 / a.kp) < temp - a.t_melt := by linarith
    rw [mul_one_div] at h5
    have h6 : a.ml * conc < (temp - a.t_melt) * a.kp := (div_lt_iff hkp0).mp h5
    have h7 : a.ml * conc / a.kp < a.ml * conc := by
      have : a.t_melt + a.ml * conc * (1 / a.kp) < a.t_melt + a.ml * conc := by
        rw [mul_one_div]
        linarith [le_trans (le_of_lt hTs) (le_refl temp)]
      rw [mul_one_div] at this
      linarith
    have h8 : a.ml * conc < a.ml * conc * a.kp := (div_lt_iff hkp0).mp h7
    have h9 : a.ml * conc * (1 - a.kp) < 0 := by nlinarith [h8]
    have hmc : a.ml * conc < 0 := by
      rcases mul_neg_iff.mp h9 with ⟨hp, hq⟩ | ⟨hp, hq⟩
      · linarith
      · exact hp
    have hdTm : temp - a.t_melt < 0 := by linarith
    exact glc_bounds_aux a.kp a.t_melt (a.t_melt + a.ml * conc) temp hkp1 hdTm
      hTl (by nlinarith [h6])
  · -- between c_eutec_a and c_eutec
    have hmlne : a.ml ≠ 0 := ne_of_lt hml
    have hmlce : a.ml * a.c_eutec = a.t_eutec - a.t_melt := by
      rw [hce, himl]
      field_simp
    have hcepos : 0 < a.c_eutec := by
      rw [hce, himl]
      exact mul_pos_of_neg_of_neg (by linarith) (one_div_neg.mpr hml)
    have hceapos : 0 < a.c_eutec_a := by
      rw [hcea]
      exact mul_pos hcepos hkp0
    have hC0 : 0 < conc := lt_of_lt_of_le hceapos hC1
    have hmc : a.ml * conc < 0 := mul_neg_of_neg_of_pos hml hC0
    have hdTm : temp - a.t_melt < 0 := by linarith
    have h1 : a.t_eutec < temp := by rw [hsup] at hTs; linarith
    have h2 : a.ml * a.c_eutec < temp - a.t_melt := by linarith [hmlce]
    have h3 : a.kp * (a.ml * a.c_eutec) < a.kp * (temp - a.t_melt) :=
      mul_lt_mul_of_pos_left h2 hkp0
    have h4 : a.ml * conc ≤ a.ml * a.c_eutec_a :=
      mul_le_mul_of_nonpos_left hC1 (le_of_lt hml)
    have h5 : a.ml * a.c_eutec_a = a.kp * (a.ml * a.c_eutec) := by
      rw [hcea]
      ring
    exact glc_bounds_aux a.kp a.t_melt (a.t_melt + a.ml * conc) temp hkp1 hdTm
      hTl (by nlinarith [h3, h4, h5])

theorem alloy_eutectic_glc_bounds (a : cs_solidification_binary_alloy_t)
    (thr : ℚ) (hA : alloy_params_consistent a thr) (temp conc : ℚ)
    (h : (_get_alloy_state a temp conc).state = .EUTECTIC) :
    0 ≤ (conc - a.c_eutec_a) * (1 / (a.c_eutec - a.c_eutec_a)) ∧
    (conc - a.c_eutec_a) * (1 / (a.c_eutec - a.c_eutec_a)) ≤ 1 := by
  obtain ⟨hml, hkp0, hkp1, hte, hikp, himl, hce, hcea, hthr, hinf, hsup⟩ := hA
  obtain ⟨hC1, hC2, _, _, _⟩ := get_alloy_state_eutectic_cases a temp conc h
  have hcepos : 0 < a.c_eutec := by
    rw [hce, himl]
    exact mul_pos_of_neg_of_neg (by linarith) (one_div_neg.mpr hml)
  have hgap : 0 < a.c_eutec - a.c_eutec_a := by
    rw [hcea]
    nlinarith [hcepos, hkp1]
  rw [mul_one_div]
  constructor
  · exact div_nonneg (by linarith) (le_of_lt hgap)
  · rw [div_le_one hgap]
    linarith

theorem forcing_mushy_le (coef e g : ℚ) (hc : 0 ≤ coef) (he : 0 < e)
    (hg0 : 0 ≤ g) (hg1 : g ≤ 1) :
    coef * (1 - g) * (1 - g) / (g * g * g + e) ≤ coef / e ∧
    0 ≤ coef * (1 - g) * (1 - g) / (g * g * g + e) := by
  have hden : 0 < g * g * g + e := by positivity
  constructor
  · rw [div_le_div_iff hden he]
    nlinarith [mul_nonneg (mul_nonneg hc hg0) hg0, mul_nonneg hc hg0,
      mul_nonneg (mul_nonneg (mul_nonneg hc hg0) hg0) hg0,
      mul_nonneg (mul_nonneg hc (le_of_lt he)) hg0,
      mul_nonneg (mul_nonneg (mul_nonneg hc (le_of_lt he)) hg0) hg0]
  · apply div_nonneg _ (le_of_lt hden)
    nlinarith [mul_nonneg hc (mul_self_nonneg (1 - g))]

theorem alloy_cell_update_SOLID (a : cs_solidification_binary_alloy_t)
    (forcing_eps rhoLovdt inv_kpm1 eut_slope : ℚ) (cell : AlloyCellIn)
    (n : StateCounts)
    (h : (_get_alloy_state a cell.temp cell.conc).state = .SOLID) :
    alloy_cell_update a forcing_eps rhoLovdt inv_kpm1 eut_slope cell n
      = .ok (⟨0,
          (if cell.g_l_prev > 0 then
            (if cell.conc ≥ a.c_eutec_a then a.c_eutec
             else cell.conc * a.inv_kp)
           else cell.c_l_prev),
          0, 0, a.forcing_coef * (1 / forcing_eps), .SOLID⟩,
        { n with n_solid := n.n_solid + 1 }) := by
  simp only [alloy_cell_update, h]

theorem alloy_cell_update_MUSHY (a : cs_solidification_binary_alloy_t)
    (forcing_eps rhoLovdt inv_kpm1 eut_slope : ℚ) (cell : AlloyCellIn)
    (n : StateCounts)
    (h : (_get_alloy_state a cell.temp cell.conc).state = .MUSHY) :
    alloy_cell_update a forcing_eps rhoLovdt inv_kpm1 eut_slope cell n
      = .ok (⟨1 + inv_kpm1 * (cell.temp - (a.t_melt + a.ml * cell.conc))
              / (cell.temp - a.t_melt),
          (cell.temp - a.t_melt) * a.inv_ml,
          inv_kpm1 * ((a.t_melt + a.ml * cell.conc) - a.t_melt)
              / ((cell.temp - a.t_melt) * (cell.temp - a.t_melt)) * rhoLovdt,
          cell.cell_vol * (inv_kpm1 * ((a.t_melt + a.ml * cell.conc) - a.t_melt)
                / ((cell.temp - a.t_melt) * (cell.temp - a.t_melt)) * cell.temp
              + inv_kpm1 * a.ml / (cell.temp - a.t_melt)
                * (cell.conc_prev - cell.conc)) * rhoLovdt,
          a.forcing_coef
            * (1 - (1 + inv_kpm1 * (cell.temp - (a.t_melt + a.ml * cell.conc))
                / (cell.temp - a.t_melt)))
            * (1 - (1 + inv_kpm1 * (cell.temp - (a.t_melt + a.ml * cell.conc))
                / (cell.temp - a.t_melt)))
            / ((1 + inv_kpm1 * (cell.temp - (a.t_melt + a.ml * cell.conc))
                / (cell.temp - a.t_melt))
              * (1 + inv_kpm1 * (cell.temp - (a.t_melt + a.ml * cell.conc))
                / (cell.temp - a.t_melt))
              * (1 + inv_kpm1 * (cell.temp - (a.t_melt + a.ml * cell.conc))
                / (cell.temp - a.t_melt)) + forcing_eps),
          .MUSHY⟩,
        { n with n_mushy := n.n_mushy + 1 }) := by
  simp only [alloy_cell_update, h, get_alloy_state_t_liquidus]

theorem alloy_cell_update_LIQUID (a : cs_solidification_binary_alloy_t)
    (forcing_eps rhoLovdt inv_kpm1 eut_slope : ℚ) (cell : AlloyCellIn)
    (n : StateCounts)
    (h : (_get_alloy_state a cell.temp cell.conc).state = .LIQUID) :
    alloy_cell_update a forcing_eps rhoLovdt inv_kpm1 eut_slope cell n
      = .ok (⟨1, cell.conc, 0, 0, 0, .LIQUID⟩,
        { n with n_liquid := n.n_liquid + 1 }) := by
  simp only [alloy_cell_update, h]

theorem alloy_cell_update_EUTECTIC (a : cs_solidification_binary_alloy_t)
    (forcing_eps rhoLovdt inv_kpm1 eut_slope : ℚ) (cell : AlloyCellIn)
    (n : StateCounts)
    (h : (_get_alloy_state a cell.temp cell.conc).state = .EUTECTIC) :
    alloy_cell_update a forcing_eps rhoLovdt inv_kpm1 eut_slope cell n
      = .ok (⟨(cell.conc - a.c_eutec_a) * eut_slope,
          a.c_eutec,
          0,
          cell.cell_vol * rhoLovdt * eut_slope * (cell.conc - cell.conc_prev),
          a.forcing_coef * (1 - (cell.conc - a.c_eutec_a) * eut_slope)
            * (1 - (cell.conc - a.c_eutec_a) * eut_slope)
            / ((cell.conc - a.c_eutec_a) * eut_slope
              * ((cell.conc - a.c_eutec_a) * eut_slope)
              * ((cell.conc - a.c_eutec_a) * eut_slope) + forcing_eps),
          .MUSHY⟩,
        { n with n_mushy := n.n_mushy + 1 }) := by
  simp only [alloy_cell_update, h]

theorem alloy_cell_update_ok (a : cs_solidification_binary_alloy_t)
    (forcing_eps rhoLovdt inv_kpm1 eut_slope : ℚ) (cell : AlloyCellIn)
    (n : StateCounts) :
    ∃ out n2,
      alloy_cell_update a forcing_eps rhoLovdt inv_kpm1 eut_slope cell n
        = .ok (out, n2) ∧
      n2.total = n.total + 1 ∧
      n2.n_eutectic = n.n_eutectic ∧
      out.cell_state ≠ .EUTECTIC := by
  rcases get_alloy_state_four_states a cell.temp cell.conc with h | h | h | h
  · exact ⟨_, _, alloy_cell_update_SOLID a forcing_eps rhoLovdt inv_kpm1
      eut_slope cell n h, by simp [StateCounts.total]; omega, by simp, by simp⟩
  · exact ⟨_, _, alloy_cell_update_MUSHY a forcing_eps rhoLovdt inv_kpm1
      eut_slope cell n h, by simp [StateCounts.total]; omega, by simp, by simp⟩
  · exact ⟨_, _, alloy_cell_update_LIQUID a forcing_eps rhoLovdt inv_kpm1
      eut_slope cell n h, by simp [StateCounts.total]; omega, by simp, by simp⟩
  · exact ⟨_, _, alloy_cell_update_EUTECTIC a forcing_eps rhoLovdt inv_kpm1
      eut_slope cell n h, by simp [StateCounts.total]; omega, by simp, by simp⟩

theorem alloy_cell_update_g_l_bounds (a : cs_solidification_binary_alloy_t)
    (thr : ℚ) (hA : alloy_params_consistent a thr)
    (forcing_eps rhoLovdt : ℚ) (cell : AlloyCellIn) (n : StateCounts)
    (out : AlloyCellOut) (n2 : StateCounts)
    (hupd : alloy_cell_update a forcing_eps rhoLovdt (1 / (a.kp - 1))
        (1 / (a.c_eutec - a.c_eutec_a)) cell n = .ok (out, n2)) :
    0 ≤ out.g_l ∧ out.g_l ≤ 1 := by
  rcases get_alloy_state_four_states a cell.temp cell.conc with h | h | h | h
  · rw [alloy_cell_update_SOLID a forcing_eps rhoLovdt _ _ cell n h] at hupd
    obtain ⟨h1, -⟩ := Prod.mk.injEq .. ▸ (Except.ok.injEq .. ▸ hupd)
    rw [← h1]
    norm_num
  · rw [alloy_cell_update_MUSHY a forcing_eps rhoLovdt _ _ cell n h] at hupd
    obtain ⟨h1, -⟩ := Prod.mk.injEq .. ▸ (Except.ok.injEq .. ▸ hupd)
    rw [← h1]
    exact alloy_mushy_glc_bounds a thr hA cell.temp cell.conc h
  · rw [alloy_cell_update_LIQUID a forcing_eps rhoLovdt _ _ cell n h] at hupd
    obtain ⟨h1, -⟩ := Prod.mk.injEq .. ▸ (Except.ok.injEq .. ▸ hupd)
    rw [← h1]
    norm_num
  · rw [alloy_cell_update_EUTECTIC a forcing_eps rhoLovdt _ _ cell n h] at hupd
    obtain ⟨h1, -⟩ := Prod.mk.injEq .. ▸ (Except.ok.injEq .. ▸ hupd)
    rw [← h1]
    exact alloy_eutectic_glc_bounds a thr hA cell.temp cell.conc h

theorem alloy_cell_update_forcing_bounds (a : cs_solidification_binary_alloy_t)
    (thr : ℚ) (hA : alloy_params_consistent a thr)
    (forcing_eps rhoLovdt : ℚ) (hc : 0 ≤ a.forcing_coef)
    (he : 0 < forcing_eps) (cell : AlloyCellIn) (n : StateCounts)
    (out : AlloyCellOut) (n2 : StateCounts)
    (hupd : alloy_cell_update a forcing_eps rhoLovdt (1 / (a.kp - 1))
        (1 / (a.c_eutec - a.c_eutec_a)) cell n = .ok (out, n2)) :
    0 ≤ out.forcing_mom ∧ out.forcing_mom ≤ a.forcing_coef / forcing_eps := by
  rcases get_alloy_state_four_states a cell.temp cell.conc with h | h | h | h
  · rw [alloy_cell_update_SOLID a forcing_eps rhoLovdt _ _ cell n h] at hupd
    obtain ⟨h1, -⟩ := Prod.mk.injEq .. ▸ (Except.ok.injEq .. ▸ hupd)
    rw [← h1]
    show 0 ≤ a.forcing_coef * (1 / forcing_eps) ∧
      a.forcing_coef * (1 / forcing_eps) ≤ a.forcing_coef / forcing_eps
    rw [mul_one_div]
    exact ⟨div_nonneg hc (le_of_lt he), le_refl _⟩
  · rw [alloy_cell_update_MUSHY a forcing_eps rhoLovdt _ _ cell n h] at hupd
    obtain ⟨h1, -⟩ := Prod.mk.injEq .. ▸ (Except.ok.injEq .. ▸ hupd)
    rw [← h1]
    obtain ⟨hg0, hg1⟩ := alloy_mushy_glc_bounds a thr hA cell.temp cell.conc h
    obtain ⟨hb, hnn⟩ := forcing_mushy_le a.forcing_coef forcing_eps
      (1 + 1 / (a.kp - 1) * (cell.temp - (a.t_melt + a.ml * cell.conc))
        / (cell.temp - a.t_melt)) hc he hg0 hg1
    exact ⟨hnn, hb⟩
  · rw [alloy_cell_update_LIQUID a forcing_eps rhoLovdt _ _ cell n h] at hupd
    obtain ⟨h1, -⟩ := Prod.mk.injEq .. ▸ (Except.ok.injEq .. ▸ hupd)
    rw [← h1]
    exact ⟨le_refl _, div_nonneg hc (le_of_lt he)⟩
  · rw [alloy_cell_update_EUTECTIC a forcing_eps rhoLovdt _ _ cell n h] at hupd
    obtain ⟨h1, -⟩ := Prod.mk.injEq .. ▸ (Except.ok.injEq .. ▸ hupd)
    rw [← h1]
    obtain ⟨hg0, hg1⟩ := alloy_eutectic_glc_bounds a thr hA cell.temp cell.conc h
    obtain ⟨hb, hnn⟩ := forcing_mushy_le a.forcing_coef forcing_eps
      ((cell.conc - a.c_eutec_a) * (1 / (a.c_eutec - a.c_eutec_a))) hc he hg0 hg1
    exact ⟨hnn, hb⟩

theorem voller_cell_update_solid (v : cs_solidification_voller_t)
    (forcing_eps dgldT_coef dgldT temp cell_vol : ℚ) (n : StateCounts)
    (h : temp < v.t_solidus) :
    voller_cell_update v forcing_eps dgldT_coef dgldT temp cell_vol n
      = (⟨0, 0, 0, v.forcing_coef * (1 / forcing_eps), .SOLID⟩,
         { n with n_solid := n.n_solid + 1 }) := by
  simp only [voller_cell_update, if_pos h]

theorem voller_cell_update_liquid (v : cs_solidification_voller_t)
    (forcing_eps dgldT_coef dgldT temp cell_vol : ℚ) (n : StateCounts)
    (h1 : ¬ temp < v.t_solidus) (h2 : temp > v.t_liquidus) :
    voller_cell_update v forcing_eps dgldT_coef dgldT temp cell_vol n
      = (⟨1, 0, 0, 0, .LIQUID⟩,
         { n with n_liquid := n.n_liquid + 1 }) := by
  simp only [voller_cell_update, if_neg h1, if_pos h2]

theorem voller_cell_update_mushy (v : cs_solidification_voller_t)
    (forcing_eps dgldT_coef dgldT temp cell_vol : ℚ) (n : StateCounts)
    (h1 : ¬ temp < v.t_solidus) (h2 : ¬ temp > v.t_liquidus) :
    voller_cell_update v forcing_eps dgldT_coef dgldT temp cell_vol n
      = (⟨(temp - v.t_solidus) * dgldT, dgldT_coef,
          dgldT_coef * temp * cell_vol,
          v.forcing_coef * (1 - (temp - v.t_solidus) * dgldT)
            * (1 - (temp - v.t_solidus) * dgldT)
            / ((temp - v.t_solidus) * dgldT * ((temp - v.t_solidus) * dgldT)
              * ((temp - v.t_solidus) * dgldT) + forcing_eps),
          .MUSHY⟩,
         { n with n_mushy := n.n_mushy + 1 }) := by
  simp only [voller_cell_update, if_neg h1, if_neg h2]

theorem voller_cell_update_counts (v : cs_solidification_voller_t)
    (forcing_eps dgldT_coef dgldT temp cell_vol : ℚ) (n : StateCounts) :
    ((voller_cell_update v forcing_eps dgldT_coef dgldT temp cell_vol n).2).total
        = n.total + 1 ∧
    ((voller_cell_update v forcing_eps dgldT_coef dgldT temp cell_vol
        n).2).n_eutectic = n.n_eutectic ∧
    ((voller_cell_update v forcing_eps dgldT_coef dgldT temp cell_vol
        n).1).cell_state ≠ .EUTECTIC := by
  unfold voller_cell_update
  split_ifs <;> simp [StateCounts.total] <;> omega

theorem voller_cell_update_g_l_bounds (v : cs_solidification_voller_t)
    (hsl : v.t_solidus < v.t_liquidus) (forcing_eps dgldT_coef : ℚ)
    (temp cell_vol : ℚ) (n : StateCounts) :
    0 ≤ ((voller_cell_update v forcing_eps dgldT_coef
        (1 / (v.t_liquidus - v.t_solidus)) temp cell_vol n).1).g_l ∧
    ((voller_cell_update v forcing_eps dgldT_coef
        (1 / (v.t_liquidus - v.t_solidus)) temp cell_vol n).1).g_l ≤ 1 := by
  have hpos : 0 < v.t_liquidus - v.t_solidus := by linarith
  unfold voller_cell_update
  split_ifs with h1 h2 <;> simp only
  · norm_num
  · norm_num
  · rw [mul_one_div]
    constructor
    · exact div_nonneg (by linarith) (le_of_lt hpos)
    · rw [div_le_one hpos]
      linarith

theorem voller_cell_update_forcing_bounds (v : cs_solidification_voller_t)
    (hsl : v.t_solidus < v.t_liquidus) (hc : 0 ≤ v.forcing_coef)
    (forcing_eps dgldT_coef : ℚ) (he : 0 < forcing_eps)
    (temp cell_vol : ℚ) (n : StateCounts) :
    0 ≤ ((voller_cell_update v forcing_eps dgldT_coef
        (1 / (v.t_liquidus - v.t_solidus)) temp cell_vol n).1).forcing_mom ∧
    ((voller_cell_update v forcing_eps dgldT_coef
        (1 / (v.t_liquidus - v.t_solidus)) temp cell_vol n).1).forcing_mom
      ≤ v.forcing_coef / forcing_eps := by
  have hpos : 0 < v.t_liquidus - v.t_solidus := by linarith
  unfold voller_cell_update
  split_ifs with h1 h2 <;> simp only
  · rw [mul_one_div]
    exact ⟨div_nonneg hc (le_of_lt he), le_refl _⟩
  · exact ⟨le_refl _, div_nonneg hc (le_of_lt he)⟩
  · have hg0 : 0 ≤ (temp - v.t_solidus) * (1 / (v.t_liquidus - v.t_solidus)) := by
      rw [mul_one_div]
      exact div_nonneg (by linarith) (le_of_lt hpos)
    have hg1 : (temp - v.t_solidus) * (1 / (v.t_liquidus - v.t_solidus)) ≤ 1 := by
      rw [mul_one_div, div_le_one hpos]
      linarith
    obtain ⟨hb, hnn⟩ := forcing_mushy_le v.forcing_coef forcing_eps
      ((temp - v.t_solidus) * (1 / (v.t_liquidus - v.t_solidus))) hc he hg0 hg1
    exact ⟨hnn, hb⟩

theorem voller_cell_update_solid_iff (v : cs_solidification_voller_t)
    (hsl : v.t_solidus < v.t_liquidus) (forcing_eps dgldT_coef : ℚ)
    (temp cell_vol : ℚ) (n : StateCounts) (hT : temp ≠ v.t_solidus) :
    ((voller_cell_update v forcing_eps dgldT_coef
        (1 / (v.t_liquidus - v.t_solidus)) temp cell_vol n).1).cell_state
        = .SOLID ↔
    ((voller_cell_update v forcing_eps dgldT_coef
        (1 / (v.t_liquidus - v.t_solidus)) temp cell_vol n).1).g_l = 0 := by
  have hpos : 0 < v.t_liquidus - v.t_solidus := by linarith
  rcases lt_trichotomy temp v.t_solidus with h1 | h1 | h1
  · rw [voller_cell_update_solid v forcing_eps dgldT_coef
      (1 / (v.t_liquidus - v.t_solidus)) temp cell_vol n h1]
    simp
  · exact absurd h1 hT
  · by_cases h2 : temp > v.t_liquidus
    · rw [voller_cell_update_liquid v forcing_eps dgldT_coef
        (1 / (v.t_liquidus - v.t_solidus)) temp cell_vol n (by linarith) h2]
      simp
    · rw [voller_cell_update_mushy v forcing_eps dgldT_coef
        (1 / (v.t_liquidus - v.t_solidus)) temp cell_vol n (by linarith) h2]
      show cs_solidification_state_t.MUSHY = .SOLID ↔
        (temp - v.t_solidus) * (1 / (v.t_liquidus - v.t_solidus)) = 0
      constructor
      · intro h
        simp at h
      · intro h
        rcases mul_eq_zero.mp h with h3 | h3
        · exact absurd (sub_eq_zero.mp h3) hT
        · exact absurd h3 (one_div_ne_zero (ne_of_gt hpos))

theorem voller_cells_loop_counts (v : cs_solidification_voller_t)
    (forcing_eps dgldT_coef dgldT : ℚ) :
    ∀ (cells : List (ℚ × ℚ)) (n : StateCounts),
      ((voller_cells_loop v forcing_eps dgldT_coef dgldT cells n).2).total
          = n.total + cells.length ∧
      ((voller_cells_loop v forcing_eps dgldT_coef dgldT cells
          n).2).n_eutectic = n.n_eutectic
  | [], n => by simp [voller_cells_loop]
  | cell :: rest, n => by
    obtain ⟨ht, he, -⟩ := voller_cell_update_counts v forcing_eps dgldT_coef
      dgldT cell.1 cell.2 n
    obtain ⟨iht, ihe⟩ := voller_cells_loop_counts v forcing_eps dgldT_coef
      dgldT rest (voller_cell_update v forcing_eps dgldT_coef dgldT
        cell.1 cell.2 n).2
    simp only [voller_cells_loop, List.length_cons]
    exact ⟨by rw [iht, ht]; omega, by rw [ihe, he]⟩

theorem voller_cells_loop_mem (v : cs_solidification_voller_t)
    (forcing_eps dgldT_coef dgldT : ℚ) (P : VollerCellOut → Prop)
    (hP : ∀ temp cell_vol n,
      P ((voller_cell_update v forcing_eps dgldT_coef dgldT temp cell_vol
        n).1)) :
    ∀ (cells : List (ℚ × ℚ)) (n : StateCounts) (out : VollerCellOut),
      out ∈ (voller_cells_loop v forcing_eps dgldT_coef dgldT cells n).1 →
      P out
  | [], n, out => by simp [voller_cells_loop]
  | cell :: rest, n, out => by
    simp only [voller_cells_loop, List.mem_cons]
    rintro (h | h)
    · rw [h]
      exact hP cell.1 cell.2 n
    · exact voller_cells_loop_mem v forcing_eps dgldT_coef dgldT P hP rest _
        out h

theorem voller_cells_loop_get (v : cs_solidification_voller_t)
    (forcing_eps dgldT_coef dgldT : ℚ) :
    ∀ (cells : List (ℚ × ℚ)) (n : StateCounts) (i : ℕ)
      (out : VollerCellOut),
      ((voller_cells_loop v forcing_eps dgldT_coef dgldT cells n).1)[i]?
          = some out →
      ∃ cell n1, cells[i]? = some cell ∧
        out = (voller_cell_update v forcing_eps dgldT_coef dgldT cell.1
          cell.2 n1).1
  | [], n, i, out => by simp [voller_cells_loop]
  | cell :: rest, n, 0, out => by
    simp only [voller_cells_loop, List.getElem?_cons_zero, Option.some.injEq]
    intro h
    exact ⟨cell, n, rfl, h.symm⟩
  | cell :: rest, n, i + 1, out => by
    simp only [voller_cells_loop, List.getElem?_cons_succ]
    intro h
    obtain ⟨c2, n1, hc, ho⟩ := voller_cells_loop_get v forcing_eps dgldT_coef
      dgldT rest _ i out h
    exact ⟨c2, n1, hc, ho⟩

theorem alloy_cells_loop_ok (a : cs_solidification_binary_alloy_t)
    (forcing_eps rhoLovdt inv_kpm1 eut_slope : ℚ) :
    ∀ (cells : List AlloyCellIn) (n : StateCounts),
      ∃ outs n2,
        alloy_cells_loop a forcing_eps rhoLovdt inv_kpm1 eut_slope cells n
          = .ok (outs, n2) ∧
        n2.total = n.total + cells.length ∧
        n2.n_eutectic = n.n_eutectic
  | [], n => ⟨[], n, by simp [alloy_cells_loop], by simp, rfl⟩
  | cell :: rest, n => by
    obtain ⟨out, m, hupd, hmt, hme, -⟩ := alloy_cell_update_ok a forcing_eps
      rhoLovdt inv_kpm1 eut_slope cell n
    obtain ⟨outs, n2, hloop, ht, heq⟩ := alloy_cells_loop_ok a forcing_eps
      rhoLovdt inv_kpm1 eut_slope rest m
    refine ⟨out :: outs, n2, ?_, ?_, ?_⟩
    · simp only [alloy_cells_loop, hupd, hloop]
    · rw [ht, hmt, List.length_cons]
      omega
    · rw [heq, hme]

theorem alloy_cells_loop_mem (a : cs_solidification_binary_alloy_t)
    (forcing_eps rhoLovdt inv_kpm1 eut_slope : ℚ) (P : AlloyCellOut → Prop)
    (hP : ∀ cell n out n2,
      alloy_cell_update a forcing_eps rhoLovdt inv_kpm1 eut_slope cell n
        = .ok (out, n2) → P out) :
    ∀ (cells : List AlloyCellIn) (n : StateCounts) (outs : List AlloyCellOut)
      (n2 : StateCounts),
      alloy_cells_loop a forcing_eps rhoLovdt inv_kpm1 eut_slope cells n
        = .ok (outs, n2) →
      ∀ out ∈ outs, P out
  | [], n, outs, n2 => by
    simp only [alloy_cells_loop, Except.ok.injEq, Prod.mk.injEq]
    rintro ⟨h1, h2⟩ out hmem
    rw [← h1] at hmem
    simp at hmem
  | cell :: rest, n, outs, n2 => by
    intro hloop out hmem
    obtain ⟨o, m, hupd, -, -, -⟩ := alloy_cell_update_ok a forcing_eps
      rhoLovdt inv_kpm1 eut_slope cell n
    obtain ⟨outs2, n3, hloop2, -, -⟩ := alloy_cells_loop_ok a forcing_eps
      rhoLovdt inv_kpm1 eut_slope rest m
    rw [alloy_cells_loop, hupd] at hloop
    dsimp only at hloop
    rw [hloop2] at hloop
    simp only [Except.ok.injEq, Prod.mk.injEq] at hloop
    rw [← hloop.1] at hmem
    rcases List.mem_cons.mp hmem with h | h
    · rw [h]
      exact hP cell n o m hupd
    · exact alloy_cells_loop_mem a forcing_eps rhoLovdt inv_kpm1 eut_slope P
        hP rest m outs2 n3 hloop2 out h

theorem StateCounts.add_total (a b : StateCounts) :
    (StateCounts.add a b).total = a.total + b.total := by
  simp [StateCounts.add, StateCounts.total]
  omega

theorem parall_sum_counts_total (ranks : List StateCounts) :
    (cs_parall_sum_counts ranks).total
      = (ranks.map StateCounts.total).sum := by
  suffices h : ∀ (l : List StateCounts) (acc : StateCounts),
      (l.foldl StateCounts.add acc).total
        = acc.total + (l.map StateCounts.total).sum by
    have h2 := h ranks StateCounts.zero
    simpa [cs_parall_sum_counts, StateCounts.zero, StateCounts.total] using h2
  intro l
  induction l with
  | nil => intro acc; simp
  | cons x xs ih =>
    intro acc
    simp only [List.foldl_cons, List.map_cons, List.sum_cons, ih,
      StateCounts.add_total]
    omega

theorem parall_sum_counts_eutectic (ranks : List StateCounts)
    (h : ∀ c ∈ ranks, c.n_eutectic = 0) :
    (cs_parall_sum_counts ranks).n_eutectic = 0 := by
  suffices hgen : ∀ (l : List StateCounts) (acc : StateCounts),
      (∀ c ∈ l, c.n_eutectic = 0) →
      (l.foldl StateCounts.add acc).n_eutectic = acc.n_eutectic by
    have h2 := hgen ranks StateCounts.zero h
    simpa [cs_parall_sum_counts, StateCounts.zero] using h2
  intro l
  induction l with
  | nil => intro acc _; simp
  | cons x xs ih =>
    intro acc hall
    simp only [List.foldl_cons]
    rw [ih _ (fun c hc => hall c (List.mem_cons_of_mem x hc))]
    have hx : x.n_eutectic = 0 := hall x (List.mem_cons_self x xs)
    simp [StateCounts.add, hx]

theorem monitor_foldl_eutectic :
    ∀ (cells : List (cs_solidification_state_t × ℚ)) (acc : StateVolumes),
      (∀ p ∈ cells, p.1 ≠ .EUTECTIC) →
      (cells.foldl monitor_cell acc).vol_eutectic = acc.vol_eutectic
  | [], acc => by simp
  | p :: rest, acc => by
    intro hall
    simp only [List.foldl_cons]
    rw [monitor_foldl_eutectic rest _
      (fun q hq => hall q (List.mem_cons_of_mem p hq))]
    have hp : p.1 ≠ .EUTECTIC := hall p (List.mem_cons_self p rest)
    rcases p with ⟨s, vol⟩
    cases s <;> simp [monitor_cell] <;> simp at hp

theorem do_monitoring_eutectic
    (cells : List (cs_solidification_state_t × ℚ)) (vol_tot : ℚ)
    (h : ∀ p ∈ cells, p.1 ≠ .EUTECTIC) :
    (_do_monitoring cells vol_tot).vol_eutectic = 0 := by
  unfold _do_monitoring
  simp only
  rw [monitor_foldl_eutectic cells StateVolumes.zero h]
  simp [StateVolumes.zero]

/-- Claim C1: in a Voller-Prakash update pass, a cell with `T < t_solidus`
gets liquid fraction 0, state SOLID, zero thermal coefficients and forcing
coefficient `forcing_coef/forcing_eps`; a cell with `T > t_liquidus` gets
liquid fraction 1, state LIQUID, zero thermal terms and forcing 0; otherwise
the cell gets `g = (T - t_solidus)/(t_liquidus - t_solidus)`, thermal
reaction coefficient `rho*latent_heat/((t_liquidus - t_solidus)*dt)`, thermal
source term = reaction coefficient times `T` times the cell volume, state
MUSHY, and forcing `forcing_coef*(1-g)^2/(g^3 + forcing_eps)`; and in the
scenario `t_solidus = 1700`, `t_liquidus = 1730`, `T = 1715` with the default
`forcing_eps = 1e-3` the liquid fraction is `0.5`, the state MUSHY and the
forcing coefficient `forcing_coef*0.25/(0.125 + 1e-3)`. -/
theorem voller_update_per_cell_spec :
    (∀ (v : cs_solidification_voller_t) (forcing_eps cell_rho dt : ℚ)
       (cells : List (ℚ × ℚ)),
      v.t_solidus < v.t_liquidus →
      ∀ (i : ℕ) (out : VollerCellOut) (cell : ℚ × ℚ),
        ((_update_liquid_fraction_voller v forcing_eps cell_rho dt
            cells).1)[i]? = some out →
        cells[i]? = some cell →
        (cell.1 < v.t_solidus →
          out.g_l = 0 ∧ out.cell_state = .SOLID ∧
          out.thermal_reaction_coef = 0 ∧ out.thermal_source_term = 0 ∧
          out.forcing_mom = v.forcing_coef / forcing_eps) ∧
        (cell.1 > v.t_liquidus →
          out.g_l = 1 ∧ out.cell_state = .LIQUID ∧
          out.thermal_reaction_coef = 0 ∧ out.thermal_source_term = 0 ∧
          out.forcing_mom = 0) ∧
        (v.t_solidus ≤ cell.1 → cell.1 ≤ v.t_liquidus →
          out.g_l = (cell.1 - v.t_solidus) / (v.t_liquidus - v.t_solidus) ∧
          out.thermal_reaction_coef
            = cell_rho * v.latent_heat / ((v.t_liquidus - v.t_solidus) * dt) ∧
          out.thermal_source_term
            = out.thermal_reaction_coef * cell.1 * cell.2 ∧
          out.cell_state = .MUSHY ∧
          out.forcing_mom = v.forcing_coef * (1 - out.g_l) * (1 - out.g_l)
            / (out.g_l * out.g_l * out.g_l + forcing_eps))) ∧
    (∀ (latent_heat forcing_coef cell_rho dt vol : ℚ) (out : VollerCellOut),
      ((_update_liquid_fraction_voller ⟨1700, 1730, latent_heat, forcing_coef⟩
          cs_solidification_forcing_eps cell_rho dt [(1715, vol)]).1)[0]?
        = some out →
      out.g_l = 1 / 2 ∧ out.cell_state = .MUSHY ∧
      out.forcing_mom
        = forcing_coef * (1 / 4) / (1 / 8 + 1 / 1000)) := by
  constructor
  · intro v forcing_eps cell_rho dt cells hsl i out cell hout hcell
    obtain ⟨cell0, n1, hc0, ho⟩ := voller_cells_loop_get v forcing_eps
      (cell_rho * v.latent_heat * (1 / (v.t_liquidus - v.t_solidus)) / dt)
      (1 / (v.t_liquidus - v.t_solidus)) cells StateCounts.zero i out hout
    rw [hcell] at hc0
    have hcc : cell = cell0 := Option.some.inj hc0
    subst hcc
    have hpos : 0 < v.t_liquidus - v.t_solidus := by linarith
    refine ⟨?_, ?_, ?_⟩
    · intro h
      rw [ho, voller_cell_update_solid v forcing_eps _ _ cell.1 cell.2 n1 h]
      refine ⟨rfl, rfl, rfl, rfl, ?_⟩
      simp only [mul_one_div]
    · intro h
      rw [ho, voller_cell_update_liquid v forcing_eps _ _ cell.1 cell.2 n1
        (by linarith) h]
      exact ⟨rfl, rfl, rfl, rfl, rfl⟩
    · intro h1 h2
      rw [ho, voller_cell_update_mushy v forcing_eps _ _ cell.1 cell.2 n1
        (by linarith) (by linarith)]
      refine ⟨?_, ?_, rfl, rfl, rfl⟩
      · simp only [mul_one_div]
      · simp only [mul_one_div, div_div]
  · intro latent_heat forcing_coef cell_rho dt vol out hout
    have : ((_update_liquid_fraction_voller
        ⟨1700, 1730, latent_heat, forcing_coef⟩ cs_solidification_forcing_eps
        cell_rho dt [(1715, vol)]).1)[0]?
        = some ⟨1 / 2,
            cell_rho * latent_heat * (1 / 30) / dt,
            cell_rho * latent_heat * (1 / 30) / dt * 1715 * vol,
            forcing_coef * (1 / 4) / (1 / 8 + 1 / 1000),
            .MUSHY⟩ := by
      norm_num [_update_liquid_fraction_voller, voller_cells_loop,
        voller_cell_update, cs_solidification_forcing_eps]
      ring
    rw [this] at hout
    obtain rfl : out = _ := (Option.some.injEq .. ▸ hout.symm)
    exact ⟨rfl, rfl, rfl⟩

/-- Claim C2: for every temperature, concentration and binary-alloy parameter
set (with the stored reciprocal `inv_kp = 1/kp`), the phase-diagram
evaluator returns `t_liquidus = t_melt + ml*C`, returns
`t_solidus = t_melt + ml*C/kp` when `C < c_eutec_a` and `t_eutec` otherwise,
and classifies the state by the spec's ordered interval rules
(`alloy_state_spec`). -/
theorem get_alloy_state_refines_spec
    (a : cs_solidification_binary_alloy_t) (temp conc : ℚ)
    (hik : a.inv_kp = 1 / a.kp) :
    _get_alloy_state a temp conc = alloy_state_spec a temp conc := by
  unfold _get_alloy_state alloy_state_spec
  dsimp only
  rw [hik, mul_one_div]
  simp only [AlloyStateOut.mk.injEq]
  refine ⟨trivial, trivial, ?_⟩
  rcases lt_or_ge conc a.c_eutec_a with h1 | h1
  · simp only [if_pos h1]
    by_cases h2 : a.t_melt + a.ml * conc < temp
    · simp only [if_pos h2]
    · simp only [if_neg h2]
      by_cases h3 : a.t_melt + a.ml * conc / a.kp < temp
      · simp only [if_pos h3, if_pos (show a.t_melt + a.ml * conc / a.kp < temp
          ∧ temp ≤ a.t_melt + a.ml * conc from ⟨h3, by linarith⟩)]
      · simp only [if_neg h3,
          if_neg (show ¬ (a.t_melt + a.ml * conc / a.kp < temp
            ∧ temp ≤ a.t_melt + a.ml * conc) from fun hc => h3 hc.1)]
  · simp only [if_neg (not_lt.mpr h1)]
    by_cases h2 : conc ≤ a.c_eutec
    · simp only [if_pos h2]
      by_cases h3 : a.t_melt + a.ml * conc < temp
      · simp only [if_pos h3]
      · simp only [if_neg h3]
        by_cases h4 : a.t_eutec_sup < temp
        · simp only [if_pos h4, if_pos (show a.t_eutec_sup < temp
            ∧ temp ≤ a.t_melt + a.ml * conc from ⟨h4, by linarith⟩)]
        · simp only [if_neg h4, if_neg (show ¬ (a.t_eutec_sup < temp
            ∧ temp ≤ a.t_melt + a.ml * conc) from fun hc => h4 hc.1)]
          by_cases h5 : a.t_eutec_inf < temp
          · simp only [if_pos h5, if_pos (show a.t_eutec_inf < temp
              ∧ temp ≤ a.t_eutec_sup from ⟨h5, by linarith⟩)]
          · simp only [if_neg h5, if_neg (show ¬ (a.t_eutec_inf < temp
              ∧ temp ≤ a.t_eutec_sup) from fun hc => h5 hc.1)]
    · simp only [if_neg h2]

/-- Claim C2 witness: the evaluator agrees with the spec rules on the
concrete parameter set `cexAlloy` at `T = 900`, `C = 1/20`. -/
theorem get_alloy_state_refines_spec_witness :
    _get_alloy_state cexAlloy 900 (1 / 20)
      = alloy_state_spec cexAlloy 900 (1 / 20) :=
  get_alloy_state_refines_spec cexAlloy 900 (1 / 20) (by norm_num [cexAlloy])

/-- Claim C3 (amended): after a Voller-Prakash update pass with
`t_solidus < t_liquidus`, for every cell whose temperature differs from
`t_solidus`, `cell_state = SOLID` holds iff the written liquid fraction is 0.
(At `T = t_solidus` exactly, the code classifies the cell MUSHY while the
mushy formula yields liquid fraction 0, so the unrestricted equivalence
fails; see the counterexample.) -/
theorem voller_solid_state_iff_glzero
    (v : cs_solidification_voller_t) (forcing_eps cell_rho dt : ℚ)
    (cells : List (ℚ × ℚ)) (hsl : v.t_solidus < v.t_liquidus)
    (i : ℕ) (out : VollerCellOut) (cell : ℚ × ℚ)
    (hout : ((_update_liquid_fraction_voller v forcing_eps cell_rho dt
        cells).1)[i]? = some out)
    (hcell : cells[i]? = some cell)
    (hT : cell.1 ≠ v.t_solidus) :
    out.cell_state = .SOLID ↔ out.g_l = 0 := by
  obtain ⟨cell0, n1, hc0, ho⟩ := voller_cells_loop_get v forcing_eps
    (cell_rho * v.latent_heat * (1 / (v.t_liquidus - v.t_solidus)) / dt)
    (1 / (v.t_liquidus - v.t_solidus)) cells StateCounts.zero i out hout
  rw [hcell] at hc0
  have hcc : cell = cell0 := Option.some.inj hc0
  subst hcc
  rw [ho]
  exact voller_cell_update_solid_iff v hsl forcing_eps _ cell.1 cell.2 n1 hT

/-- Claim C3 witness: a cell at `T = 1600 < t_solidus = 1700` satisfies the
(amended) equivalence: it is tagged SOLID and its liquid fraction is 0. -/
theorem voller_solid_state_iff_glzero_witness :
    ((⟨0, 0, 0, 1, .SOLID⟩ : VollerCellOut).cell_state = .SOLID
      ↔ (⟨0, 0, 0, 1, .SOLID⟩ : VollerCellOut).g_l = 0) :=
  voller_solid_state_iff_glzero ⟨1700, 1730, 1, 1⟩ 1 1 1 [(1600, 1)]
    (by norm_num) 0 ⟨0, 0, 0, 1, .SOLID⟩ (1600, 1)
    (by norm_num [_update_liquid_fraction_voller, voller_cells_loop,
      voller_cell_update]) rfl (by norm_num)

/-- Claim C3 counterexample: with `t_solidus = 1700 < t_liquidus = 1730` and
cell temperature exactly `1700`, the update pass writes liquid fraction 0 but
tags the cell MUSHY, so `cell_state = SOLID ⇔ liquid_fraction = 0` is false:
the right-hand side holds and the left-hand side does not. -/
theorem voller_solid_state_iff_glzero_cex :
    ((_update_liquid_fraction_voller ⟨1700, 1730, 1, 1⟩ (1 / 1000) 1 1
        [(1700, 1)]).1.map (fun o => (o.g_l, o.cell_state)))
      = [(0, .MUSHY)] ∧
    ¬ (cs_solidification_state_t.MUSHY = .SOLID ↔ (0 : ℚ) = 0) := by
  constructor
  · norm_num [_update_liquid_fraction_voller, voller_cells_loop,
      voller_cell_update]
  · intro h
    have h2 := h.mpr rfl
    exact absurd h2 (by simp)

/-- Claim C1 witness: a concrete cell at `T = 1600` below
`t_solidus = 1700` receives liquid fraction 0, state SOLID, zero thermal
coefficients and forcing coefficient `forcing_coef/forcing_eps = 1/1`. -/
theorem voller_update_per_cell_spec_witness :
    (⟨0, 0, 0, 1, .SOLID⟩ : VollerCellOut).g_l = 0 ∧
    (⟨0, 0, 0, 1, .SOLID⟩ : VollerCellOut).cell_state = .SOLID ∧
    (⟨0, 0, 0, 1, .SOLID⟩ : VollerCellOut).thermal_reaction_coef = 0 ∧
    (⟨0, 0, 0, 1, .SOLID⟩ : VollerCellOut).thermal_source_term = 0 ∧
    (⟨0, 0, 0, 1, .SOLID⟩ : VollerCellOut).forcing_mom = 1 / 1 :=
  (voller_update_per_cell_spec.1 ⟨1700, 1730, 1, 1⟩ 1 1 1 [(1600, 1)]
    (by norm_num) 0 ⟨0, 0, 0, 1, .SOLID⟩ (1600, 1)
    (by norm_num [_update_liquid_fraction_voller, voller_cells_loop,
      voller_cell_update]) rfl).1 (by norm_num)

/-- Claim C4 (amended): the phase-diagram evaluator always assigns exactly
one of the four states SOLID, MUSHY, LIQUID, EUTECTIC (the sentinel
`N_STATES` never escapes); and the returned pair satisfies
`t_solidus ≤ t_liquidus` for every physically consistent parameter set
whenever `0 ≤ C ≤ c_eutec`.  For `C > c_eutec` (hyper-eutectic) the code
returns `t_solidus = t_eutec > t_liquidus`, so the unrestricted ordering
claim is false; see the counterexample. -/
theorem alloy_state_partition_and_ordering :
    (∀ (a : cs_solidification_binary_alloy_t) (temp conc : ℚ),
      (_get_alloy_state a temp conc).state = .SOLID ∨
      (_get_alloy_state a temp conc).state = .MUSHY ∨
      (_get_alloy_state a temp conc).state = .LIQUID ∨
      (_get_alloy_state a temp conc).state = .EUTECTIC) ∧
    (∀ (a : cs_solidification_binary_alloy_t) (thr temp conc : ℚ),
      alloy_params_consistent a thr → 0 ≤ conc → conc ≤ a.c_eutec →
      (_get_alloy_state a temp conc).t_solidus
        ≤ (_get_alloy_state a temp conc).t_liquidus) := by
  constructor
  · exact get_alloy_state_four_states
  · intro a thr temp conc hA hc0 hce
    obtain ⟨hml, hkp0, hkp1, hte, hik, himl, hceq, hcea, hthr, hinf, hsup⟩ := hA
    show (if conc < a.c_eutec_a then a.t_melt + a.ml * conc * a.inv_kp
        else a.t_eutec) ≤ a.t_melt + a.ml * conc
    have hmlc : a.ml * conc ≤ 0 :=
      mul_nonpos_of_nonpos_of_nonneg (le_of_lt hml) hc0
    by_cases h1 : conc < a.c_eutec_a
    · rw [if_pos h1, hik, mul_one_div]
      have h2 : a.ml * conc * 1 ≤ a.ml * conc * a.kp := by
        nlinarith [mul_le_mul_of_nonpos_left (le_of_lt hkp1) hmlc]
      have h3 : a.ml * conc / a.kp ≤ a.ml * conc := by
        rw [div_le_iff hkp0]
        nlinarith [h2]
      linarith
    · rw [if_neg h1]
      have hmlne : a.ml ≠ 0 := ne_of_lt hml
      have hmlce : a.ml * a.c_eutec = a.t_eutec - a.t_melt := by
        rw [hceq, himl]
        field_simp
      have h3 : a.ml * a.c_eutec ≤ a.ml * conc :=
        mul_le_mul_of_nonpos_left hce (le_of_lt hml)
      linarith
/-- Claim C4 witness: on `cexAlloy` with `T = 750`, `C = 1/5` the evaluator
returns state MUSHY (one of the four states) and ordered temperatures. -/
theorem alloy_state_partition_and_ordering_witness :
    ((_get_alloy_state cexAlloy 750 (1 / 5)).state = .SOLID ∨
     (_get_alloy_state cexAlloy 750 (1 / 5)).state = .MUSHY ∨
     (_get_alloy_state cexAlloy 750 (1 / 5)).state = .LIQUID ∨
     (_get_alloy_state cexAlloy 750 (1 / 5)).state = .EUTECTIC) ∧
    (_get_alloy_state cexAlloy 750 (1 / 5)).t_solidus
      ≤ (_get_alloy_state cexAlloy 750 (1 / 5)).t_liquidus :=
  ⟨alloy_state_partition_and_ordering.1 cexAlloy 750 (1 / 5),
   alloy_state_partition_and_ordering.2 cexAlloy
     cs_solidification_eutectic_threshold 750 (1 / 5)
     (by norm_num [alloy_params_consistent, cexAlloy,
       cs_solidification_eutectic_threshold])
     (by norm_num) (by norm_num [cexAlloy])⟩

/-- Claim C4 counterexample: on the physically consistent parameter set
`cexAlloy` (where `c_eutec = 3/10`), the input `C = 2/5 > c_eutec` yields
`t_liquidus = 600 < t_solidus = 700`, refuting the unrestricted
`t_solidus ≤ t_liquidus` part of the claim. -/
theorem alloy_state_ordering_cex :
    (_get_alloy_state cexAlloy 650 (2 / 5)).t_liquidus
      < (_get_alloy_state cexAlloy 650 (2 / 5)).t_solidus := by
  norm_num [_get_alloy_state, cexAlloy]

/-- Claim C5: a cell classified EUTECTIC in the binary-alloy update pass
(with the pass-precomputed constants `rhoLovdt = rho*latent_heat/dt`,
`inv_kpm1` and `eut_slope`) gets liquid fraction
`(C - c_eutec_a)/(c_eutec - c_eutec_a)`, liquid concentration `c_eutec`,
thermal reaction coefficient 0, thermal source term
`cell_vol*(rho*latent_heat/dt)*(C - C_prev)/(c_eutec - c_eutec_a)`, its
cell-state tag is MUSHY and it increments the MUSHY counter (the EUTECTIC
counter bucket is untouched); and in the scenario `c_eutec_a = 1/10`,
`c_eutec = 3/10`, `C = 1/5` the liquid fraction is `1/2`. -/
theorem alloy_eutectic_branch_spec :
    (∀ (a : cs_solidification_binary_alloy_t)
       (forcing_eps cell_rho dt : ℚ) (cell : AlloyCellIn) (n : StateCounts)
       (out : AlloyCellOut) (n2 : StateCounts),
      (_get_alloy_state a cell.temp cell.conc).state = .EUTECTIC →
      alloy_cell_update a forcing_eps (cell_rho * a.latent_heat / dt)
          (1 / (a.kp - 1)) (1 / (a.c_eutec - a.c_eutec_a)) cell n
        = .ok (out, n2) →
      out.g_l = (cell.conc - a.c_eutec_a) / (a.c_eutec - a.c_eutec_a) ∧
      out.c_l = a.c_eutec ∧
      out.thermal_reaction_coef = 0 ∧
      out.thermal_source_term
        = cell.cell_vol * (cell_rho * a.latent_heat / dt)
            * ((cell.conc - cell.conc_prev) / (a.c_eutec - a.c_eutec_a)) ∧
      out.cell_state = .MUSHY ∧
      n2 = { n with n_mushy := n.n_mushy + 1 }) ∧
    (∀ (a : cs_solidification_binary_alloy_t)
       (forcing_eps cell_rho dt : ℚ) (cell : AlloyCellIn) (n : StateCounts)
       (out : AlloyCellOut) (n2 : StateCounts),
      a.c_eutec_a = 1 / 10 → a.c_eutec = 3 / 10 → cell.conc = 1 / 5 →
      (_get_alloy_state a cell.temp cell.conc).state = .EUTECTIC →
      alloy_cell_update a forcing_eps (cell_rho * a.latent_heat / dt)
          (1 / (a.kp - 1)) (1 / (a.c_eutec - a.c_eutec_a)) cell n
        = .ok (out, n2) →
      out.g_l = 1 / 2) := by
  have hmain : ∀ (a : cs_solidification_binary_alloy_t)
      (forcing_eps cell_rho dt : ℚ) (cell : AlloyCellIn) (n : StateCounts)
      (out : AlloyCellOut) (n2 : StateCounts),
      (_get_alloy_state a cell.temp cell.conc).state = .EUTECTIC →
      alloy_cell_update a forcing_eps (cell_rho * a.latent_heat / dt)
          (1 / (a.kp - 1)) (1 / (a.c_eutec - a.c_eutec_a)) cell n
        = .ok (out, n2) →
      out.g_l = (cell.conc - a.c_eutec_a) / (a.c_eutec - a.c_eutec_a) ∧
      out.c_l = a.c_eutec ∧
      out.thermal_reaction_coef = 0 ∧
      out.thermal_source_term
        = cell.cell_vol * (cell_rho * a.latent_heat / dt)
            * ((cell.conc - cell.conc_prev) / (a.c_eutec - a.c_eutec_a)) ∧
      out.cell_state = .MUSHY ∧
      n2 = { n with n_mushy := n.n_mushy + 1 } := by
    intro a forcing_eps cell_rho dt cell n out n2 hstate hupd
    rw [alloy_cell_update_EUTECTIC a forcing_eps _ _ _ cell n hstate] at hupd
    obtain ⟨h1, h2⟩ := Prod.mk.injEq .. ▸ (Except.ok.injEq .. ▸ hupd)
    rw [← h1, ← h2]
    refine ⟨?_, rfl, rfl, ?_, rfl, rfl⟩
    · show (cell.conc - a.c_eutec_a) * (1 / (a.c_eutec - a.c_eutec_a))
        = (cell.conc - a.c_eutec_a) / (a.c_eutec - a.c_eutec_a)
      rw [mul_one_div]
    · show cell.cell_vol * (cell_rho * a.latent_heat / dt)
          * (1 / (a.c_eutec - a.c_eutec_a)) * (cell.conc - cell.conc_prev)
        = cell.cell_vol * (cell_rho * a.latent_heat / dt)
            * ((cell.conc - cell.conc_prev) / (a.c_eutec - a.c_eutec_a))
      ring
  refine ⟨hmain, ?_⟩
  intro a forcing_eps cell_rho dt cell n out n2 hca hcb hconc hstate hupd
  obtain ⟨hg, -⟩ := hmain a forcing_eps cell_rho dt cell n out n2 hstate hupd
  rw [hg, hca, hcb, hconc]
  norm_num

theorem voller_pass_total (v : cs_solidification_voller_t)
    (forcing_eps cell_rho dt : ℚ) (cells : List (ℚ × ℚ)) :
    ((_update_liquid_fraction_voller v forcing_eps cell_rho dt
        cells).2).total = cells.length := by
  unfold _update_liquid_fraction_voller
  rw [(voller_cells_loop_counts v forcing_eps _ _ cells StateCounts.zero).1]
  simp [StateCounts.zero, StateCounts.total]

theorem voller_pass_eutectic (v : cs_solidification_voller_t)
    (forcing_eps cell_rho dt : ℚ) (cells : List (ℚ × ℚ)) :
    ((_update_liquid_fraction_voller v forcing_eps cell_rho dt
        cells).2).n_eutectic = 0 := by
  unfold _update_liquid_fraction_voller
  rw [(voller_cells_loop_counts v forcing_eps _ _ cells StateCounts.zero).2]
  rfl

theorem voller_pass_state_ne (v : cs_solidification_voller_t)
    (forcing_eps cell_rho dt : ℚ) (cells : List (ℚ × ℚ)) :
    ∀ out ∈ (_update_liquid_fraction_voller v forcing_eps cell_rho dt
        cells).1, out.cell_state ≠ .EUTECTIC := by
  intro out hmem
  exact voller_cells_loop_mem v forcing_eps _ _
    (fun o => o.cell_state ≠ .EUTECTIC)
    (fun t vol n =>
      (voller_cell_update_counts v forcing_eps _ _ t vol n).2.2)
    cells StateCounts.zero out hmem

theorem alloy_pass_ok_inv (a : cs_solidification_binary_alloy_t)
    (forcing_eps cell_rho dt : ℚ) (cells : List AlloyCellIn)
    (outs : List AlloyCellOut) (n2 : StateCounts)
    (h : _update_liquid_fraction_binary_alloy a forcing_eps cell_rho dt cells
      = .ok (outs, n2)) :
    n2.total = cells.length ∧ n2.n_eutectic = 0 := by
  obtain ⟨outs0, n20, hloop, ht, hee⟩ := alloy_cells_loop_ok a forcing_eps
    (cell_rho * a.latent_heat / dt) (1 / (a.kp - 1))
    (1 / (a.c_eutec - a.c_eutec_a)) cells StateCounts.zero
  unfold _update_liquid_fraction_binary_alloy at h
  rw [hloop] at h
  obtain ⟨h1, h2⟩ := Prod.mk.injEq .. ▸ (Except.ok.injEq .. ▸ h)
  rw [← h2]
  refine ⟨?_, ?_⟩
  · rw [ht]
    simp [StateCounts.zero, StateCounts.total]
  · rw [hee]
    rfl

theorem alloy_cell_update_state_ne (a : cs_solidification_binary_alloy_t)
    (forcing_eps rhoLovdt inv_kpm1 eut_slope : ℚ) (cell : AlloyCellIn)
    (n : StateCounts) (out : AlloyCellOut) (m : StateCounts)
    (h : alloy_cell_update a forcing_eps rhoLovdt inv_kpm1 eut_slope cell n
      = .ok (out, m)) :
    out.cell_state ≠ .EUTECTIC := by
  obtain ⟨o2, m2, h2, -, -, hne⟩ := alloy_cell_update_ok a forcing_eps
    rhoLovdt inv_kpm1 eut_slope cell n
  rw [h] at h2
  obtain ⟨h3, -⟩ := Prod.mk.injEq .. ▸ (Except.ok.injEq .. ▸ h2)
  rw [h3]
  exact hne

theorem alloy_pass_state_ne (a : cs_solidification_binary_alloy_t)
    (forcing_eps cell_rho dt : ℚ) (cells : List AlloyCellIn)
    (outs : List AlloyCellOut) (n2 : StateCounts)
    (h : _update_liquid_fraction_binary_alloy a forcing_eps cell_rho dt cells
      = .ok (outs, n2)) :
    ∀ out ∈ outs, out.cell_state ≠ .EUTECTIC := by
  intro out hmem
  exact alloy_cells_loop_mem a forcing_eps (cell_rho * a.latent_heat / dt)
    (1 / (a.kp - 1)) (1 / (a.c_eutec - a.c_eutec_a))
    (fun o => o.cell_state ≠ .EUTECTIC)
    (fun cell n o m hupd =>
      alloy_cell_update_state_ne a forcing_eps _ _ _ cell n o m hupd)
    cells StateCounts.zero outs n2 h out hmem

/-- Claim C6 (amended): assuming a non-negative `forcing_coef` (the spec
publishes the forcing array as non-negative), `t_solidus < t_liquidus`
resp. consistent alloy parameters, and `forcing_eps > 0`, every
momentum-forcing coefficient an update pass writes is non-negative and
bounded above by `forcing_coef/forcing_eps`.  For a negative `forcing_coef`
the LIQUID branch writes 0, which exceeds `forcing_coef/forcing_eps`; see
the counterexample. -/
theorem forcing_mom_bounded :
    (∀ (v : cs_solidification_voller_t) (forcing_eps cell_rho dt : ℚ)
       (cells : List (ℚ × ℚ)),
      v.t_solidus < v.t_liquidus → 0 < forcing_eps → 0 ≤ v.forcing_coef →
      ∀ out ∈ (_update_liquid_fraction_voller v forcing_eps cell_rho dt
          cells).1,
        0 ≤ out.forcing_mom ∧
        out.forcing_mom ≤ v.forcing_coef / forcing_eps) ∧
    (∀ (a : cs_solidification_binary_alloy_t)
       (thr forcing_eps cell_rho dt : ℚ) (cells : List AlloyCellIn)
       (outs : List AlloyCellOut) (n2 : StateCounts),
      alloy_params_consistent a thr → 0 < forcing_eps →
      0 ≤ a.forcing_coef →
      _update_liquid_fraction_binary_alloy a forcing_eps cell_rho dt cells
        = .ok (outs, n2) →
      ∀ out ∈ outs,
        0 ≤ out.forcing_mom ∧
        out.forcing_mom ≤ a.forcing_coef / forcing_eps) := by
  constructor
  · intro v forcing_eps cell_rho dt cells hsl he hc out hmem
    exact voller_cells_loop_mem v forcing_eps _ _
      (fun o => 0 ≤ o.forcing_mom ∧
        o.forcing_mom ≤ v.forcing_coef / forcing_eps)
      (fun t vol n =>
        voller_cell_update_forcing_bounds v hsl hc forcing_eps _ he t vol n)
      cells StateCounts.zero out hmem
  · intro a thr forcing_eps cell_rho dt cells outs n2 hA he hc hok out hmem
    exact alloy_cells_loop_mem a forcing_eps (cell_rho * a.latent_heat / dt)
      (1 / (a.kp - 1)) (1 / (a.c_eutec - a.c_eutec_a))
      (fun o => 0 ≤ o.forcing_mom ∧
        o.forcing_mom ≤ a.forcing_coef / forcing_eps)
      (fun cell n o m hupd =>
        alloy_cell_update_forcing_bounds a thr hA forcing_eps _ hc he
          cell n o m hupd)
      cells StateCounts.zero outs n2 hok out hmem

/-- Claim C6 witness: the mushy cell `T = 1715` of the Voller scenario has
forcing coefficient `2/9`, which is non-negative and at most
`forcing_coef/forcing_eps = 1/1`. -/
theorem forcing_mom_bounded_witness :
    0 ≤ (⟨1 / 2, 1 / 30, 343 / 6, 2 / 9, .MUSHY⟩ : VollerCellOut).forcing_mom
    ∧ (⟨1 / 2, 1 / 30, 343 / 6, 2 / 9, .MUSHY⟩ :
        VollerCellOut).forcing_mom ≤ 1 / 1 :=
  forcing_mom_bounded.1 ⟨1700, 1730, 1, 1⟩ 1 1 1 [(1715, 1)]
    (by norm_num) (by norm_num) (by norm_num)
    ⟨1 / 2, 1 / 30, 343 / 6, 2 / 9, .MUSHY⟩
    (by norm_num [_update_liquid_fraction_voller, voller_cells_loop,
      voller_cell_update, List.mem_singleton])

/-- Claim C6 counterexample: with `forcing_coef = -1` (the sign the C doc
comment of the setter even suggests), the LIQUID branch writes forcing
coefficient 0, which is not bounded above by
`forcing_coef/forcing_eps = -1/1`; the claim as stated, with no sign
assumption on `forcing_coef`, is therefore false. -/
theorem forcing_mom_bounded_cex :
    ((_update_liquid_fraction_voller ⟨0, 10, 1, -1⟩ 1 1 1 [(20, 1)]).1.map
      (fun o => o.forcing_mom)) = [0] ∧
    ¬ ((0 : ℚ) ≤ (-1) / 1) := by
  constructor
  · norm_num [_update_liquid_fraction_voller, voller_cells_loop,
      voller_cell_update]
  · norm_num

/-- Claim C7: after an update pass of either model the four state counters
sum to the local cell count, and the elementwise-summed (globally reduced)
counters sum to the global cell count, for both the Voller and the
binary-alloy updater. -/
theorem update_counts_conservation :
    (∀ (v : cs_solidification_voller_t) (forcing_eps cell_rho dt : ℚ)
       (cells : List (ℚ × ℚ)),
      ((_update_liquid_fraction_voller v forcing_eps cell_rho dt
          cells).2).total = cells.length) ∧
    (∀ (a : cs_solidification_binary_alloy_t)
       (forcing_eps cell_rho dt : ℚ) (cells : List AlloyCellIn),
      ∃ outs n2,
        _update_liquid_fraction_binary_alloy a forcing_eps cell_rho dt cells
          = .ok (outs, n2) ∧ n2.total = cells.length) ∧
    (∀ (v : cs_solidification_voller_t) (forcing_eps cell_rho dt : ℚ)
       (rank_cells : List (List (ℚ × ℚ))),
      (cs_parall_sum_counts (rank_cells.map
          (fun cs => (_update_liquid_fraction_voller v forcing_eps cell_rho
            dt cs).2))).total
        = (rank_cells.map List.length).sum) ∧
    (∀ (a : cs_solidification_binary_alloy_t)
       (forcing_eps cell_rho dt : ℚ)
       (rank_cells : List (List AlloyCellIn)) (counts : List StateCounts),
      List.Forall₂ (fun cs c => ∃ outs,
        _update_liquid_fraction_binary_alloy a forcing_eps cell_rho dt cs
          = .ok (outs, c)) rank_cells counts →
      (cs_parall_sum_counts counts).total
        = (rank_cells.map List.length).sum) := by
  refine ⟨voller_pass_total, ?_, ?_, ?_⟩
  · intro a forcing_eps cell_rho dt cells
    obtain ⟨outs, n2, hloop, ht, -⟩ := alloy_cells_loop_ok a forcing_eps
      (cell_rho * a.latent_heat / dt) (1 / (a.kp - 1))
      (1 / (a.c_eutec - a.c_eutec_a)) cells StateCounts.zero
    refine ⟨outs, n2, hloop, ?_⟩
    rw [ht]
    simp [StateCounts.zero, StateCounts.total]
  · intro v forcing_eps cell_rho dt rank_cells
    rw [parall_sum_counts_total, List.map_map]
    congr 1
    induction rank_cells with
    | nil => rfl
    | cons cs rest ih =>
      simp only [List.map_cons]
      rw [ih]
      have h := voller_pass_total v forcing_eps cell_rho dt cs
      simp only [Function.comp_apply, h]
  · intro a forcing_eps cell_rho dt rank_cells counts hf
    rw [parall_sum_counts_total]
    have hmap : counts.map StateCounts.total = rank_cells.map List.length := by
      induction hf with
      | nil => rfl
      | cons h1 h2 ih =>
        obtain ⟨outs, hok⟩ := h1
        simp only [List.map_cons, ih]
        rw [(alloy_pass_ok_inv _ _ _ _ _ _ _ hok).1]
    rw [hmap]

/-- Claim C7 witness: a one-cell binary-alloy pass on one rank produces the
count vector `(0,1,0,0)`, whose reduced total equals the global cell
count 1. -/
theorem update_counts_conservation_witness :
    (cs_parall_sum_counts [⟨0, 1, 0, 0⟩]).total
      = (([[⟨900, 1 / 20, 1 / 20, 1, 1, 0⟩]] :
          List (List AlloyCellIn)).map List.length).sum :=
  update_counts_conservation.2.2.2 cexAlloy 1 1 1
    [[⟨900, 1 / 20, 1 / 20, 1, 1, 0⟩]] [⟨0, 1, 0, 0⟩]
    (List.Forall₂.cons
      ⟨[⟨1 / 4, 1 / 10, 3 / 400, 27 / 4, 36 / 65, .MUSHY⟩],
       by norm_num [_update_liquid_fraction_binary_alloy, alloy_cells_loop,
         alloy_cell_update, _get_alloy_state, cexAlloy, StateCounts.zero]⟩
      List.Forall₂.nil)

/-- Claim C5 witness: on `cexAlloy` (`c_eutec_a = 1/10`, `c_eutec = 3/10`)
the eutectic cell `T = 700`, `C = 1/5` receives liquid fraction `1/2`,
liquid concentration `c_eutec = 3/10`, zero thermal reaction coefficient,
and is tagged/counted MUSHY. -/
theorem alloy_eutectic_branch_spec_witness :
    (⟨1 / 2, 3 / 10, 0, 0, 2 / 9, .MUSHY⟩ : AlloyCellOut).g_l
        = ((1 / 5 : ℚ) - 1 / 10) / (3 / 10 - 1 / 10) ∧
    (⟨1 / 2, 3 / 10, 0, 0, 2 / 9, .MUSHY⟩ : AlloyCellOut).c_l
        = (3 / 10 : ℚ) ∧
    (⟨1 / 2, 3 / 10, 0, 0, 2 / 9, .MUSHY⟩ :
        AlloyCellOut).thermal_reaction_coef = 0 ∧
    (⟨1 / 2, 3 / 10, 0, 0, 2 / 9, .MUSHY⟩ :
        AlloyCellOut).thermal_source_term
        = 1 * (1 * (1 : ℚ) / 1) * (((1 / 5) - 1 / 5) / (3 / 10 - 1 / 10)) ∧
    (⟨1 / 2, 3 / 10, 0, 0, 2 / 9, .MUSHY⟩ : AlloyCellOut).cell_state
        = .MUSHY ∧
    (⟨0, 1, 0, 0⟩ : StateCounts)
        = { StateCounts.zero with n_mushy := StateCounts.zero.n_mushy + 1 } :=
  alloy_eutectic_branch_spec.1 cexAlloy 1 1 1 ⟨700, 1 / 5, 1 / 5, 1, 1, 0⟩
    StateCounts.zero ⟨1 / 2, 3 / 10, 0, 0, 2 / 9, .MUSHY⟩ ⟨0, 1, 0, 0⟩
    (by norm_num [_get_alloy_state, cexAlloy])
    (by norm_num [alloy_cell_update, _get_alloy_state, cexAlloy,
      StateCounts.zero])

/-- Claim C8: every value an update pass writes into the per-cell
liquid-fraction field lies in `[0,1]`: for the Voller pass under
`t_solidus < t_liquidus`, and for the binary-alloy pass under the
physically consistent parameter set established by the setter — including
the unclamped mushy formula `g = 1 + (T - t_liquidus)/((kp-1)(T - t_melt))`
on its reachable inputs. -/
theorem g_l_unit_interval :
    (∀ (v : cs_solidification_voller_t) (forcing_eps cell_rho dt : ℚ)
       (cells : List (ℚ × ℚ)),
      v.t_solidus < v.t_liquidus →
      ∀ out ∈ (_update_liquid_fraction_voller v forcing_eps cell_rho dt
          cells).1,
        0 ≤ out.g_l ∧ out.g_l ≤ 1) ∧
    (∀ (a : cs_solidification_binary_alloy_t)
       (thr forcing_eps cell_rho dt : ℚ) (cells : List AlloyCellIn)
       (outs : List AlloyCellOut) (n2 : StateCounts),
      alloy_params_consistent a thr →
      _update_liquid_fraction_binary_alloy a forcing_eps cell_rho dt cells
        = .ok (outs, n2) →
      ∀ out ∈ outs, 0 ≤ out.g_l ∧ out.g_l ≤ 1) := by
  constructor
  · intro v forcing_eps cell_rho dt cells hsl out hmem
    exact voller_cells_loop_mem v forcing_eps _ _
      (fun o => 0 ≤ o.g_l ∧ o.g_l ≤ 1)
      (fun t vol n =>
        voller_cell_update_g_l_bounds v hsl forcing_eps _ t vol n)
      cells StateCounts.zero out hmem
  · intro a thr forcing_eps cell_rho dt cells outs n2 hA hok out hmem
    exact alloy_cells_loop_mem a forcing_eps (cell_rho * a.latent_heat / dt)
      (1 / (a.kp - 1)) (1 / (a.c_eutec - a.c_eutec_a))
      (fun o => 0 ≤ o.g_l ∧ o.g_l ≤ 1)
      (fun cell n o m hupd =>
        alloy_cell_update_g_l_bounds a thr hA forcing_eps _ cell n o m hupd)
      cells StateCounts.zero outs n2 hok out hmem

/-- Claim C8 witness: the mushy alloy cell `T = 900`, `C = 1/20` on
`cexAlloy` receives liquid fraction `1/4`, inside `[0,1]`. -/
theorem g_l_unit_interval_witness :
    0 ≤ (⟨1 / 4, 1 / 10, 3 / 400, 27 / 4, 36 / 65, .MUSHY⟩ :
        AlloyCellOut).g_l ∧
    (⟨1 / 4, 1 / 10, 3 / 400, 27 / 4, 36 / 65, .MUSHY⟩ :
        AlloyCellOut).g_l ≤ 1 :=
  g_l_unit_interval.2 cexAlloy cs_solidification_eutectic_threshold 1 1 1
    [⟨900, 1 / 20, 1 / 20, 1, 1, 0⟩]
    [⟨1 / 4, 1 / 10, 3 / 400, 27 / 4, 36 / 65, .MUSHY⟩] ⟨0, 1, 0, 0⟩
    (by norm_num [alloy_params_consistent, cexAlloy,
      cs_solidification_eutectic_threshold])
    (by norm_num [_update_liquid_fraction_binary_alloy, alloy_cells_loop,
      alloy_cell_update, _get_alloy_state, cexAlloy, StateCounts.zero])
    ⟨1 / 4, 1 / 10, 3 / 400, 27 / 4, 36 / 65, .MUSHY⟩ (by norm_num)

/-- Claim C9 (code-bug evidence): the Voller setter aborts via `bft_error`
both on an unactivated module and on the wrong model variant; the
binary-alloy setter aborts on an unactivated module, but its wrong-variant
check is only `assert(...)` (line 1288): in an `NDEBUG` build
(`ndebug = true`) a call against a Voller-activated module proceeds and
writes the parameters instead of aborting, and even with assertions enabled
it fails via the assertion, not via a `bft_error` message. -/
theorem binary_alloy_setter_wrong_model_writes :
    cs_solidification_set_voller_model_outcome none
      = .fatal_empty ∧
    cs_solidification_set_voller_model_outcome (some ⟨false, true⟩)
      = .fatal_wrong_model ∧
    cs_solidification_set_voller_model_outcome (some ⟨true, false⟩)
      = .writes ∧
    cs_solidification_set_binary_alloy_model_outcome true none
      = .fatal_empty ∧
    cs_solidification_set_binary_alloy_model_outcome false none
      = .fatal_empty ∧
    cs_solidification_set_binary_alloy_model_outcome true (some ⟨true, false⟩)
      = .writes ∧
    cs_solidification_set_binary_alloy_model_outcome false (some ⟨true, false⟩)
      = .assert_failure :=
  ⟨rfl, rfl, rfl, rfl, rfl, rfl, rfl⟩

/-- Claim C10: no updater of either model ever stores EUTECTIC in the
cell-state array or increments the EUTECTIC counter, so after an update
pass plus a monitoring pass the EUTECTIC count and the EUTECTIC volume
ratio are zero, and so is the globally reduced EUTECTIC count. -/
theorem monitoring_no_eutectic :
    (∀ (v : cs_solidification_voller_t)
       (forcing_eps cell_rho dt vol_tot : ℚ) (cells : List (ℚ × ℚ)),
      ((_update_liquid_fraction_voller v forcing_eps cell_rho dt
          cells).2).n_eutectic = 0 ∧
      (_do_monitoring
          (((_update_liquid_fraction_voller v forcing_eps cell_rho dt
              cells).1.map (fun o => o.cell_state)).zip
            (cells.map Prod.snd)) vol_tot).vol_eutectic = 0) ∧
    (∀ (a : cs_solidification_binary_alloy_t)
       (forcing_eps cell_rho dt vol_tot : ℚ) (cells : List AlloyCellIn)
       (outs : List AlloyCellOut) (n2 : StateCounts),
      _update_liquid_fraction_binary_alloy a forcing_eps cell_rho dt cells
        = .ok (outs, n2) →
      n2.n_eutectic = 0 ∧
      (_do_monitoring ((outs.map (fun o => o.cell_state)).zip
          (cells.map (fun c => c.cell_vol))) vol_tot).vol_eutectic = 0) ∧
    (∀ counts : List StateCounts, (∀ c ∈ counts, c.n_eutectic = 0) →
      (cs_parall_sum_counts counts).n_eutectic = 0) := by
  refine ⟨?_, ?_, parall_sum_counts_eutectic⟩
  · intro v forcing_eps cell_rho dt vol_tot cells
    refine ⟨voller_pass_eutectic v forcing_eps cell_rho dt cells, ?_⟩
    apply do_monitoring_eutectic
    rintro ⟨s, vol⟩ hp
    have h1 := (List.mem_zip hp).1
    obtain ⟨o, ho, heq⟩ := List.mem_map.mp h1
    rw [← heq]
    exact voller_pass_state_ne v forcing_eps cell_rho dt cells o ho
  · intro a forcing_eps cell_rho dt vol_tot cells outs n2 hok
    refine ⟨(alloy_pass_ok_inv a forcing_eps cell_rho dt cells outs n2
      hok).2, ?_⟩
    apply do_monitoring_eutectic
    rintro ⟨s, vol⟩ hp
    have h1 := (List.mem_zip hp).1
    obtain ⟨o, ho, heq⟩ := List.mem_map.mp h1
    rw [← heq]
    exact alloy_pass_state_ne a forcing_eps cell_rho dt cells outs n2 hok o ho

/-- Claim C10 witness: the one-cell binary-alloy pass on `cexAlloy`
produces counter vector `(0,1,0,0)` with zero EUTECTIC entry, and the
monitoring snapshot on its output has zero EUTECTIC volume ratio. -/
theorem monitoring_no_eutectic_witness :
    (⟨0, 1, 0, 0⟩ : StateCounts).n_eutectic = 0 ∧
    (_do_monitoring
        ((([⟨1 / 4, 1 / 10, 3 / 400, 27 / 4, 36 / 65, .MUSHY⟩] :
            List AlloyCellOut).map (fun o => o.cell_state)).zip
          (([⟨900, 1 / 20, 1 / 20, 1, 1, 0⟩] : List AlloyCellIn).map
            (fun c => c.cell_vol))) 1).vol_eutectic = 0 :=
  monitoring_no_eutectic.2.1 cexAlloy 1 1 1 1
    [⟨900, 1 / 20, 1 / 20, 1, 1, 0⟩]
    [⟨1 / 4, 1 / 10, 3 / 400, 27 / 4, 36 / 65, .MUSHY⟩] ⟨0, 1, 0, 0⟩
    (by norm_num [_update_liquid_fraction_binary_alloy, alloy_cells_loop,
      alloy_cell_update, _get_alloy_state, cexAlloy, StateCounts.zero])

end CsSolidification
